import Mathlib

/-!
# Event-log decoding in `contract-events` and `query-history-events`

A shallow embedding of the two event programs of the repository
(`cmd/contract-events/main.go`, `cmd/query-history-events/main.go`) together
with the part of the go-ethereum `accounts/abi` package that their call
`contractAbi.UnpackIntoInterface(&event, "ItemSet", vLog.Data)` runs through.

Conventions of the embedding:

* a byte is a `Fin 256`, a Go `[32]byte` / `common.Hash` is a list of 32 bytes;
* every `fmt.Printf` / `fmt.Println` / `log.Printf` call of a loop body is one
  `Out` record naming the call and carrying the values it formats;
* `log.Fatal` and a run-time panic end the process: the loops return the
  output produced so far together with the way the process ended.
-/

namespace EthProject

/-! ## Bytes, hashes, hex rendering -/

abbrev Byte := Fin 256

/-- A Go `[32]byte`, which is also the representation of `common.Hash`. -/
structure Hash where
  bytes : List Byte
  size : bytes.length = 32
deriving DecidableEq

/-- The zero value of a `[32]byte`. -/
def Hash.zero : Hash := ⟨List.replicate 32 0, by simp⟩

/-- The digit table of Go `encoding/hex`: `"0123456789abcdef"`. -/
def hextable : List Char :=
  ['0', '1', '2', '3', '4', '5', '6', '7', '8', '9', 'a', 'b', 'c', 'd', 'e', 'f']

/-- One hex digit, `hextable[n]`. -/
def hexDigit (n : Nat) : Char := hextable.getD n '0'

/-- The two digits `hextable[v>>4], hextable[v&0x0f]` of one byte. -/
def hexByte (b : Byte) : List Char := [hexDigit (b.val / 16), hexDigit (b.val % 16)]

/-- The characters of `hex.EncodeToString`. -/
def hexChars : List Byte → List Char
  | [] => []
  | b :: bs => hexByte b ++ hexChars bs

/-- Go `hex.EncodeToString`, which is what `common.Bytes2Hex` returns. -/
def Bytes2Hex (d : List Byte) : String := String.mk (hexChars d)

/-- Method `Hash.Hex()`: `hexutil.Encode(h[:])`, the digits after a `0x` prefix. -/
def Hash.Hex (h : Hash) : String := "0x" ++ Bytes2Hex h.bytes

/-- Method `big.Int.SetBytes` read back: the integer a big-endian byte string
stands for, as the contract reads a `uint256` word. -/
def bytesToNat (b : List Byte) : Nat := b.foldl (fun z x => z * 256 + x.val) 0

/-! ## The log record (`types.Log`) -/

/-- The fields of `types.Log` the programs read. -/
structure Log where
  Topics : List Hash
  Data : List Byte
  BlockNumber : Nat
  TxHash : Hash
  BlockHash : Hash
  Index : Nat
deriving DecidableEq

/-! ## The contract interface (`abi.ABI`) and `UnpackIntoInterface` -/

/-- The ABI types that occur in `StoreABI`. -/
inductive AbiType
  | FixedBytesTy (size : Nat)
  | StringTy
deriving DecidableEq

structure Argument where
  Name : String
  Typ : AbiType
  Indexed : Bool
deriving DecidableEq

structure Event where
  Name : String
  Anonymous : Bool
  Inputs : List Argument
deriving DecidableEq

structure Method where
  Name : String
  Inputs : List Argument
  Outputs : List Argument
deriving DecidableEq

/-- The parsed interface: `abi.Methods` and `abi.Events` are Go maps keyed by
name, represented by association lists searched by name. -/
structure ABI where
  Constructor : List Argument
  Methods : List Method
  Events : List Event

/-- The one event of the `StoreABI` literal:
`ItemSet(bytes32 indexed key, bytes32 value)`, not anonymous. -/
def ItemSet : Event :=
  ⟨"ItemSet", false, [⟨"key", .FixedBytesTy 32, true⟩, ⟨"value", .FixedBytesTy 32, false⟩]⟩

/-- The value `abi.JSON` returns for the `StoreABI` literal (the same literal in
both programs): a constructor, the event `ItemSet(bytes32 indexed key,
bytes32 value)` and the functions `items`, `setItem`, `version`. -/
def StoreABI : ABI where
  Constructor := [⟨"_version", .StringTy, false⟩]
  Events := [ItemSet]
  Methods :=
    [⟨"items", [⟨"", .FixedBytesTy 32, false⟩], [⟨"", .FixedBytesTy 32, false⟩]⟩,
     ⟨"setItem", [⟨"key", .FixedBytesTy 32, false⟩, ⟨"value", .FixedBytesTy 32, false⟩], []⟩,
     ⟨"version", [], [⟨"", .StringTy, false⟩]⟩]

/-- The errors of the `accounts/abi` package on the decoding path. -/
inductive AbiError
  /-- Error `abi: improperly formatted output` -/
  | improperlyFormatted
  /-- Error `abi: could not locate named method or event` -/
  | couldNotLocate (name : String)
  /-- Error `abi: attempting to unmarshal an empty string while arguments are expected` -/
  | emptyWhileExpected
  /-- Error `abi: cannot marshal in to go type: length insufficient %d require %d` -/
  | lengthInsufficient (have_ need : Nat)
  /-- Error `abi: attempting to copy no values while arguments are expected` -/
  | copyNoValues
  /-- Error `abi: field %s can't be found in the given value` -/
  | fieldNotFound (name : String)
  /-- Error `abi: cannot marshal in to go slice: offset %v would go over slice boundary (len=%v)` -/
  | offsetOverBoundary (offsetEnd len : Nat)
  /-- Error `abi offset larger than int64: %v` -/
  | offsetTooLarge (offsetEnd : Nat)
  /-- Error `abi: length larger than int64: %v` -/
  | lengthTooLarge (totalSize : Nat)
deriving DecidableEq

deriving instance DecidableEq for Except

/-- Method `ABI.getArguments`: the outputs of the method of that name, replaced by
the inputs of the event of that name when there is one; an error when the
name is neither. -/
def ABI.getArguments (abi : ABI) (name : String) (data : List Byte) :
    Except AbiError (List Argument) :=
  match abi.Methods.find? (fun m => m.Name == name) with
  | some method =>
    if data.length % 32 ≠ 0 then .error .improperlyFormatted
    else
      match abi.Events.find? (fun e => e.Name == name) with
      | some event => .ok event.Inputs
      | none => .ok method.Outputs
  | none =>
    match abi.Events.find? (fun e => e.Name == name) with
    | some event => .ok event.Inputs
    | none => .error (.couldNotLocate name)

/-- Method `Arguments.NonIndexed`: the arguments with `Indexed` false, in order. -/
def NonIndexed (arguments : List Argument) : List Argument :=
  arguments.filter (fun a => !a.Indexed)

/-- A decoded Go value: the byte array `ReadFixedBytes` builds for `bytes<size>`,
or the Go string (its bytes) read for `string`. -/
inductive GoValue
  | fixedBytes (bs : List Byte)
  | str (bs : List Byte)
deriving DecidableEq

/-- Function `lengthPrefixPointsTo`: for a dynamic type, the word at `index` is
the offset of the length word; the result is where the content starts and
its length, both checked against the size of `output`. -/
def lengthPrefixPointsTo (index : Nat) (output : List Byte) : Except AbiError (Nat × Nat) :=
  let bigOffsetEnd := bytesToNat ((output.drop index).take 32) + 32
  let outputLength := output.length
  if bigOffsetEnd > outputLength then .error (.offsetOverBoundary bigOffsetEnd outputLength)
  else if 2 ^ 63 ≤ bigOffsetEnd then .error (.offsetTooLarge bigOffsetEnd)
  else
    let offsetEnd := bigOffsetEnd
    let lengthBig := bytesToNat ((output.drop (offsetEnd - 32)).take 32)
    let totalSize := bigOffsetEnd + lengthBig
    if 2 ^ 63 ≤ totalSize then .error (.lengthTooLarge totalSize)
    else if totalSize > outputLength then .error (.lengthInsufficient outputLength totalSize)
    else .ok (bigOffsetEnd, lengthBig)

/-- Function `toGoType`: the 32-byte word at `index` must lie inside `output`. For
the static type `bytes<size>` the value is the first `size` bytes of that
word (`ReadFixedBytes`); for `string` it is `output[begin : begin+length]`,
located by `lengthPrefixPointsTo`. -/
def toGoType (index : Nat) (t : AbiType) (output : List Byte) : Except AbiError GoValue :=
  if index + 32 > output.length then
    .error (.lengthInsufficient output.length (index + 32))
  else
    match t with
    | .FixedBytesTy size => .ok (.fixedBytes (((output.drop index).take 32).take size))
    | .StringTy =>
      match lengthPrefixPointsTo index output with
      | .error e => .error e
      | .ok (begin, length) => .ok (.str ((output.drop begin).take length))

/-- The loop of `Arguments.UnpackValues` over the non-indexed arguments, the
`index`-th being read at offset `index * 32` (no tuple or static array
occurs, so `virtualArgs` stays 0). -/
def unpackLoop (data : List Byte) : Nat → List Argument → Except AbiError (List GoValue)
  | _, [] => .ok []
  | index, arg :: rest =>
    match toGoType (index * 32) arg.Typ data with
    | .error e => .error e
    | .ok v =>
      match unpackLoop data (index + 1) rest with
      | .error e => .error e
      | .ok vs => .ok (v :: vs)

/-- Method `Arguments.UnpackValues`. -/
def UnpackValues (arguments : List Argument) (data : List Byte) :
    Except AbiError (List GoValue) :=
  unpackLoop data 0 (NonIndexed arguments)

/-- Method `Arguments.Unpack`. -/
def Unpack (arguments : List Argument) (data : List Byte) : Except AbiError (List GoValue) :=
  if data.length = 0 then
    if (NonIndexed arguments).length ≠ 0 then .error .emptyWhileExpected else .ok []
  else UnpackValues arguments data

/-- The struct both programs decode into:
`struct { Key [32]byte; Value [32]byte }`. -/
structure ItemSetEvent where
  Key : Hash
  Value : Hash
deriving DecidableEq

/-- The zero value `struct{...}{}` the programs start from. -/
def ItemSetEvent.init : ItemSetEvent := ⟨Hash.zero, Hash.zero⟩

/-- Function `abi.ToCamelCase` on a name without underscores: the first letter in
upper case. -/
def ToCamelCase (s : String) : String := s.capitalize

/-- Function `setArray` for a destination of type `[32]byte`: a new zero array
that takes the first `min(len(src), 32)` elements of the source. -/
def setArray (src : List Byte) : Hash :=
  ⟨src.take 32 ++ List.replicate (32 - (src.take 32).length) 0, by
    simp only [List.length_append, List.length_take, List.length_replicate]
    omega⟩

/-- Function `set` for a destination of type `[32]byte`: a `[32]byte` value is
assignable and is stored as it is; a byte array of another size and a string
go through `setArray`. -/
def setBytes32 (v : GoValue) : Hash :=
  match v with
  | .fixedBytes bs => if h : bs.length = 32 then ⟨bs, h⟩ else setArray bs
  | .str bs => setArray bs

/-- Assignment to the struct field of the given Go name (`reflect` lookup by
name followed by `set`); both fields are of type `[32]byte`. -/
def ItemSetEvent.setField (ev : ItemSetEvent) (field : String) (v : GoValue) :
    Except AbiError ItemSetEvent :=
  if field = "Key" then .ok { ev with Key := setBytes32 v }
  else if field = "Value" then .ok { ev with Value := setBytes32 v }
  else .error (.fieldNotFound field)

/-- The loop of `copyTuple` for a struct target: the `i`-th non-indexed
argument's value goes to the field its camel-cased name maps to. -/
def copyTupleLoop : ItemSetEvent → List Argument → List GoValue → Except AbiError ItemSetEvent
  | ev, arg :: args, v :: vs =>
    match ev.setField (ToCamelCase arg.Name) v with
    | .error e => .error e
    | .ok ev1 => copyTupleLoop ev1 args vs
  | ev, _, _ => .ok ev

/-- Method `Arguments.copyAtomic` for a struct target: the value is set into the
first field of the struct, `dst.Field(0)`, which is `Key`. -/
def copyAtomic (v : ItemSetEvent) (marshalledValues : GoValue) :
    Except AbiError ItemSetEvent :=
  v.setField "Key" marshalledValues

/-- Method `Arguments.Copy` into the struct `v`: nothing to copy without values,
`copyTuple` when `isTuple` (`len(arguments) > 1`), `copyAtomic` of `values[0]`
otherwise. -/
def Copy (arguments : List Argument) (v : ItemSetEvent) (values : List GoValue) :
    Except AbiError ItemSetEvent :=
  match values with
  | [] => if (NonIndexed arguments).length ≠ 0 then .error .copyNoValues else .ok v
  | v0 :: _ =>
    if arguments.length > 1 then copyTupleLoop v (NonIndexed arguments) values
    else copyAtomic v v0

/-- Method `ABI.UnpackIntoInterface(v, name, data)`. -/
def ABI.UnpackIntoInterface (abi : ABI) (v : ItemSetEvent) (name : String) (data : List Byte) :
    Except AbiError ItemSetEvent :=
  match abi.getArguments name data with
  | .error e => .error e
  | .ok args =>
    match Unpack args data with
    | .error e => .error e
    | .ok unpacked => Copy args v unpacked

/-! ## Keccak-256 and the event identifier -/

/-- Rotation of a 64-bit lane to the left. -/
def rotl64 (x n : Nat) : Nat := ((x <<< n) ||| (x >>> (64 - n))) % 2 ^ 64

/-- The 24 round constants of Keccak-f[1600]. -/
def roundConstants : List Nat :=
  [0x0000000000000001, 0x0000000000008082, 0x800000000000808A, 0x8000000080008000,
   0x000000000000808B, 0x0000000080000001, 0x8000000080008081, 0x8000000000008009,
   0x000000000000008A, 0x0000000000000088, 0x0000000080008009, 0x000000008000000A,
   0x000000008000808B, 0x800000000000008B, 0x8000000000008089, 0x8000000000008003,
   0x8000000000008002, 0x8000000000000080, 0x000000000000800A, 0x800000008000000A,
   0x8000000080008081, 0x8000000000008080, 0x0000000080000001, 0x8000000080008008]

/-- The rotation offsets of step rho, for the lane at `x + 5 * y`. -/
def rotationOffsets : List Nat :=
  [0, 1, 62, 28, 27,
   36, 44, 6, 55, 20,
   3, 10, 43, 25, 39,
   41, 45, 15, 21, 8,
   18, 2, 61, 56, 14]

/-- Lane `(x, y)` of a state of 25 lanes, coordinates taken modulo 5. -/
def lane (a : List Nat) (x y : Nat) : Nat := a.getD (x % 5 + 5 * (y % 5)) 0

def theta (a : List Nat) : List Nat :=
  let c := (List.range 5).map fun x =>
    lane a x 0 ^^^ lane a x 1 ^^^ lane a x 2 ^^^ lane a x 3 ^^^ lane a x 4
  let d := (List.range 5).map fun x =>
    c.getD ((x + 4) % 5) 0 ^^^ rotl64 (c.getD ((x + 1) % 5) 0) 1
  (List.range 25).map fun i => a.getD i 0 ^^^ d.getD (i % 5) 0

/-- Steps rho and pi: lane `(X, Y)` of the result is lane `(x, y)` rotated, where
`(X, Y) = (y, 2x + 3y)`. -/
def rhoPi (a : List Nat) : List Nat :=
  (List.range 25).map fun i =>
    let x := (i % 5 + 3 * (i / 5)) % 5
    let y := i % 5
    rotl64 (lane a x y) (rotationOffsets.getD (x + 5 * y) 0)

def chi (b : List Nat) : List Nat :=
  (List.range 25).map fun i =>
    lane b (i % 5) (i / 5) ^^^
      ((2 ^ 64 - 1 - lane b (i % 5 + 1) (i / 5)) &&& lane b (i % 5 + 2) (i / 5))

def iota (rc : Nat) : List Nat → List Nat
  | [] => []
  | h :: t => (h ^^^ rc) :: t

/-- One round of the permutation. -/
def keccakRound (a : List Nat) (rc : Nat) : List Nat := iota rc (chi (rhoPi (theta a)))

/-- The permutation Keccak-f[1600]. -/
def keccakF (a : List Nat) : List Nat := roundConstants.foldl keccakRound a

/-- A little-endian lane of bytes. -/
def laneOfBytes : List Nat → Nat
  | [] => 0
  | b :: bs => b + 256 * laneOfBytes bs

/-- The first `k` consecutive chunks of `n` elements. -/
def chunks (n : Nat) : Nat → List Nat → List (List Nat)
  | 0, _ => []
  | k + 1, l => l.take n :: chunks n k (l.drop n)

/-- Keccak padding (`0x01 ... 0x80`) to a multiple of the rate, 136 bytes. -/
def keccakPad (msg : List Nat) : List Nat :=
  let q := 136 - msg.length % 136
  if q = 1 then msg ++ [0x81] else msg ++ [0x01] ++ List.replicate (q - 2) 0 ++ [0x80]

/-- Absorption of one block of 136 bytes (17 lanes). -/
def absorbBlock (st : List Nat) (block : List Nat) : List Nat :=
  let lanes := (chunks 8 17 block).map laneOfBytes
  keccakF ((List.range 25).map fun i => st.getD i 0 ^^^ lanes.getD i 0)

/-- The sponge state after absorbing the padded message. -/
def keccakState (msg : List Nat) : List Nat :=
  let p := keccakPad msg
  (chunks 136 (p.length / 136) p).foldl absorbBlock (List.replicate 25 0)

/-- Byte `i` of the state, lanes little-endian. -/
def stateByte (st : List Nat) (i : Nat) : Byte :=
  Fin.ofNat ((st.getD (i / 8) 0 >>> (8 * (i % 8))) % 256)

/-- Function `crypto.Keccak256Hash`: the first 32 bytes squeezed from the sponge. -/
def Keccak256Hash (data : List Byte) : Hash :=
  ⟨(List.range 32).map (stateByte (keccakState (data.map Fin.val))), by simp⟩

/-- Go `[]byte(s)` for a string of ASCII characters. -/
def stringBytes (s : String) : List Byte := s.toList.map fun c => Fin.ofNat c.toNat

/-- Method `Type.String()`: the canonical name of the type. -/
def AbiType.String : AbiType → String
  | .FixedBytesTy size => "bytes" ++ toString size
  | .StringTy => "string"

/-- The signature `NewEvent` builds: the name and the comma-separated input
types in declaration order, the indexed flags playing no part. -/
def Event.Sig (e : Event) : String :=
  e.Name ++ "(" ++ ",".intercalate (e.Inputs.map fun a => a.Typ.String) ++ ")"

/-- The identifier `NewEvent` builds, `Keccak256([]byte(sig))`: the value of
`topics[0]` in the logs of a non-anonymous event. -/
def Event.ID (e : Event) : Hash := Keccak256Hash (stringBytes e.Sig)

/-! ## The loop bodies of the two programs -/

/-- One output call of a loop body, with the values it formats. The first
group belongs to `query-history-events`, the second to `contract-events`, the
third to both. -/
inductive Out
  /-- Call `"\n=== 事件 #%d ===\n"` with `i+1` -/
  | eventNumber (n : Nat)
  /-- Call `"日志索引: %d\n"` with `vLog.Index` -/
  | logIndex (n : Nat)
  /-- Call `log.Printf("解析事件数据失败: %v", err)` -/
  | decodeFailed (err : AbiError)
  /-- Call `"Value (non-indexed): 0x%s\n"` with `common.Bytes2Hex(event.Value[:])` -/
  | valueNonIndexed (hex : String)
  /-- Call `"Key (indexed): %s\n"` with `topics[1]` -/
  | keyIndexed (topic : String)
  /-- Call `"所有indexed参数: %v\n"` with `topics[1:]` -/
  | allIndexed (topics : List String)
  /-- Call `"\n🎉 收到新事件！"` -/
  | received
  /-- The rule `"==========================================="`. -/
  | rule
  /-- Call `"🔑 Key (hex): %s\n"` with `common.Bytes2Hex(event.Key[:])` -/
  | keyHex (hex : String)
  /-- Call `"💎 Value (hex): %s\n"` with `common.Bytes2Hex(event.Value[:])` -/
  | valueHex (hex : String)
  /-- Call `"🔑 Key (string): %s\n"` with `keyStr` -/
  | keyString (s : List Byte)
  /-- Call `"💎 Value (string): %s\n"` with `valueStr` -/
  | valueString (s : List Byte)
  /-- Call `"🏷️  Indexed参数: %v\n"` with `topics[1:]` -/
  | indexedParams (topics : List String)
  /-- Call `"🔑 Key (from topic): %s\n"` with `topics[1]` -/
  | keyFromTopic (topic : String)
  /-- The block hash line, with `vLog.BlockHash.Hex()`. -/
  | blockHash (hex : String)
  /-- The block number line, with `vLog.BlockNumber`. -/
  | blockNumber (n : Nat)
  /-- The transaction hash line, with `vLog.TxHash.Hex()`. -/
  | txHash (hex : String)
  /-- The event signature line, with `topics[0]`. -/
  | eventSignature (topic : String)
deriving DecidableEq

/-- The ways a process ends before its code runs out. -/
inductive Exit
  /-- Call `log.Fatal("解析事件数据失败:", err)`: the message is logged and the process exits. -/
  | fatalDecode (err : AbiError)
  /-- Call `log.Fatal("事件订阅出错:", err)` -/
  | fatalSubscription (err : String)
  /-- The run-time panic `index out of range [index] with length len`. -/
  | panicIndex (index len : Nat)
deriving DecidableEq

/-- What a piece of code did: its output in order, and how the process ended
inside it (`none` when control reached the end of the piece). -/
structure Run where
  out : List Out
  exit : Option Exit
deriving DecidableEq

/-- Go indexing `s[i]`, which panics when `i` is out of range. -/
def index (s : List String) (i : Nat) : Except Exit String :=
  match s[i]? with
  | some x => .ok x
  | none => .error (.panicIndex i s.length)

/-- The loop over `range vLog.Topics` whose body is
`topics = append(topics, vLog.Topics[i].Hex())`, started from the slice `topics`. -/
def appendTopics (topics : List String) : List Hash → List String
  | [] => topics
  | t :: ts => appendTopics (topics ++ [t.Hex]) ts

/-- The slice `topics` after the loop, which starts from `var topics []string`. -/
def buildTopics (vLogTopics : List Hash) : List String := appendTopics [] vLogTopics

/-- The call `contractAbi.UnpackIntoInterface(&event, "ItemSet", vLog.Data)` on the
zero-valued `event`, as both programs make it. -/
def decodeLog (vLog : Log) : Except AbiError ItemSetEvent :=
  StoreABI.UnpackIntoInterface ItemSetEvent.init "ItemSet" vLog.Data

/-- The lines of `query-history-events` that precede the decoding (lines 92-98). -/
def historyHeader (i : Nat) (vLog : Log) : List Out :=
  [.eventNumber (i + 1), .blockHash vLog.BlockHash.Hex, .blockNumber vLog.BlockNumber,
   .txHash vLog.TxHash.Hex, .logIndex vLog.Index]

/-- Step 8 of `query-history-events` (lines 123-135), after the output `o`. -/
def historyTopics (o : List Out) (vLog : Log) : Run :=
  let topics := buildTopics vLog.Topics
  match index topics 0 with
  | .error p => ⟨o, some p⟩
  | .ok t0 =>
    let o := o ++ [.eventSignature t0]
    if topics.length > 1 then
      match index topics 1 with
      | .error p => ⟨o, some p⟩
      | .ok t1 => ⟨o ++ [.keyIndexed t1, .allIndexed (topics.drop 1)], none⟩
    else ⟨o, none⟩

/-- The body of the loop `for i, vLog := range logs` of `query-history-events`
(lines 91-136). A decoding error is logged and the body left by `continue`. -/
def historyBody (i : Nat) (vLog : Log) : Run :=
  let o := historyHeader i vLog
  match decodeLog vLog with
  | .error err => ⟨o ++ [.decodeFailed err], none⟩
  | .ok event => historyTopics (o ++ [.valueNonIndexed (Bytes2Hex event.Value.bytes)]) vLog

/-- The loop `for i, vLog := range logs` run from index `i`. -/
def historyLoop : Nat → List Log → Run
  | _, [] => ⟨[], none⟩
  | i, vLog :: rest =>
    match historyBody i vLog with
    | ⟨o, some e⟩ => ⟨o, some e⟩
    | ⟨o, none⟩ => ⟨o ++ (historyLoop (i + 1) rest).out, (historyLoop (i + 1) rest).exit⟩

/-- Go `strings.TrimRight(s, "\x00")` on the bytes of `s`. -/
def trimRightZero (s : List Byte) : List Byte := s.rdropWhile (fun b => b == 0)

/-- The lines of `contract-events` that precede the decoding (lines 76-85). -/
def eventsHeader (vLog : Log) : List Out :=
  [.received, .rule, .blockHash vLog.BlockHash.Hex, .blockNumber vLog.BlockNumber,
   .txHash vLog.TxHash.Hex]

/-- Step 9 of `contract-events` (lines 105-117). -/
def eventsDecoded (event : ItemSetEvent) : List Out :=
  let keyStr := trimRightZero event.Key.bytes
  let valueStr := trimRightZero event.Value.bytes
  [.keyHex (Bytes2Hex event.Key.bytes), .valueHex (Bytes2Hex event.Value.bytes)]
    ++ (if keyStr ≠ [] then [.keyString keyStr] else [])
    ++ (if valueStr ≠ [] then [.valueString valueStr] else [])

/-- Step 10 of `contract-events` (lines 123-139), after the output `o`. -/
def eventsTopics (o : List Out) (vLog : Log) : Run :=
  let topics := buildTopics vLog.Topics
  match index topics 0 with
  | .error p => ⟨o, some p⟩
  | .ok t0 =>
    let o := o ++ [.eventSignature t0]
    if topics.length > 1 then
      match index topics 1 with
      | .error p => ⟨o, some p⟩
      | .ok t1 => ⟨o ++ [.indexedParams (topics.drop 1), .keyFromTopic t1, .rule], none⟩
    else ⟨o ++ [.rule], none⟩

/-- The body of `case vLog := <-logs` of `contract-events` (lines 75-139). A
decoding error ends the process by `log.Fatal`. -/
def eventsBody (vLog : Log) : Run :=
  let o := eventsHeader vLog
  match decodeLog vLog with
  | .error err => ⟨o, some (.fatalDecode err)⟩
  | .ok event => eventsTopics (o ++ eventsDecoded event) vLog

/-- What one turn of the `select` of `contract-events` receives. -/
inductive Selected
  /-- Case `case err := <-sub.Err()` -/
  | err (e : String)
  /-- Case `case vLog := <-logs` -/
  | log (vLog : Log)
deriving DecidableEq

/-- The endless `for` / `select` loop of `contract-events` on the sequence of
what its `select` receives; at the end of the sequence the loop is blocked
in `select`, the process alive. -/
def eventsLoop : List Selected → Run
  | [] => ⟨[], none⟩
  | .err e :: _ => ⟨[], some (.fatalSubscription e)⟩
  | .log vLog :: rest =>
    match eventsBody vLog with
    | ⟨o, some e⟩ => ⟨o, some e⟩
    | ⟨o, none⟩ => ⟨o ++ (eventsLoop rest).out, (eventsLoop rest).exit⟩

/-! ## Encoding of a synthetic log, sample records, views of the output -/

/-- Function `common.RightPadBytes(slice, l)`. -/
def RightPadBytes (slice : List Byte) (l : Nat) : List Byte :=
  if l ≤ slice.length then slice else slice ++ List.replicate (l - slice.length) 0

/-- The data payload of an `ItemSet` log: the ABI encoding of its one non-indexed
argument, which `packElement` computes for `bytes32` as
`common.RightPadBytes(value[:], 32)`. -/
def packItemSetData (value : Hash) : List Byte := RightPadBytes value.bytes 32

/-- The log of `ItemSet(key, value)`: the event identifier and the indexed key
as topics, the encoded value as data. -/
def syntheticLog (key value : Hash) : Log :=
  ⟨[ItemSet.ID, key], packItemSetData value, 0, Hash.zero, Hash.zero, 0⟩

/-- The `[32]byte` whose bytes all equal `b`. -/
def Hash.fill (b : Byte) : Hash := ⟨List.replicate 32 b, by simp⟩

/-- A record with one topic that is not an event identifier of `StoreABI`, and 32
bytes of data. -/
def foreignLog : Log := ⟨[Hash.zero], List.replicate 32 0, 0, Hash.zero, Hash.zero, 0⟩

/-- A record without topics (as `LOG0` or an anonymous event without indexed
fields produces), with 32 bytes of data. -/
def bareLog : Log := ⟨[], List.replicate 32 7, 0, Hash.zero, Hash.zero, 0⟩

/-- A record with three topics and 64 bytes of data. -/
def wideLog : Log :=
  ⟨[ItemSet.ID, Hash.fill 1, Hash.fill 2], List.replicate 64 9, 0, Hash.zero, Hash.zero, 0⟩

/-- A record of `ItemSet` whose key is the all-zero `bytes32`. -/
def zeroKeyLog : Log := ⟨[ItemSet.ID, Hash.zero], List.replicate 32 5, 0, Hash.zero, Hash.zero, 0⟩

/-- A record of `ItemSet` with an empty data payload. -/
def emptyDataLog : Log := ⟨[ItemSet.ID, Hash.fill 1], [], 7, Hash.zero, Hash.zero, 0⟩

/-- A well-formed record of `ItemSet` in block `n`. -/
def goodLog (n : Nat) : Log := ⟨[ItemSet.ID, Hash.fill 1], List.replicate 32 3, n, Hash.zero, Hash.zero, 0⟩

/-- The values of the `Value (non-indexed)` lines, in order. -/
def valuesReported (out : List Out) : List String :=
  out.filterMap fun o => match o with
    | .valueNonIndexed h => some h
    | _ => none

/-- The numbers of the `事件 #` lines, in order. -/
def eventNumbers (out : List Out) : List Nat :=
  out.filterMap fun o => match o with
    | .eventNumber n => some n
    | _ => none

/-- The numbers of the block number lines, in order. -/
def blockNumbers (out : List Out) : List Nat :=
  out.filterMap fun o => match o with
    | .blockNumber n => some n
    | _ => none

/-- The numbers of the log index lines, in order. -/
def logIndices (out : List Out) : List Nat :=
  out.filterMap fun o => match o with
    | .logIndex n => some n
    | _ => none

/-- The positions (block number, log index) the output shows, in order. -/
def positionsReported (out : List Out) : List (Nat × Nat) :=
  (blockNumbers out).zip (logIndices out)

/-- The position of a record in the chain: block number, then log index. -/
def Log.position (l : Log) : Nat × Nat := (l.BlockNumber, l.Index)

/-- Block-number-ascending, then log-index-ascending. -/
abbrev posLE (a b : Nat × Nat) : Prop := a.1 < b.1 ∨ (a.1 = b.1 ∧ a.2 ≤ b.2)

/-! ## The subscription loop as a transition system -/

/-- One turn of the loop of `contract-events` as a transition: a process that has
ended stays as it is; a live one ends on `case err := <-sub.Err()` and runs
the body on `case vLog := <-logs`. -/
def eventsStep (s : Run) (x : Selected) : Run :=
  match s.exit with
  | some _ => s
  | none =>
    match x with
    | .err e => ⟨s.out, some (.fatalSubscription e)⟩
    | .log vLog => ⟨s.out ++ (eventsBody vLog).out, (eventsBody vLog).exit⟩

/-- The transition system run from the initial state over a sequence of inputs. -/
def eventsRun (xs : List Selected) : Run := xs.foldl eventsStep ⟨[], none⟩

/-- A transport error as `sub.Err()` delivers it. -/
def transportError : String := "websocket: close 1006 (abnormal closure)"

/-! ## Step 9 of `query-history-events` -/

/-- The bytes `[]byte("ItemSet(bytes32,bytes32)")` of line 140. -/
def eventSignature : List Byte := stringBytes "ItemSet(bytes32,bytes32)"

/-- The hash `crypto.Keccak256Hash(eventSignature)` of line 141, printed by
`hash.Hex()`. -/
def eventSignatureHash : Hash := Keccak256Hash eventSignature

/-! ## Addresses, `create-wallet` and the call data of `token-transfer` -/

/-- A Go `common.Address`, 20 bytes. -/
structure Address where
  bytes : List Byte
  size : bytes.length = 20
deriving DecidableEq

/-- Function `hexutil.Encode`: the hex digits after `0x`. -/
def hexutilEncode (b : List Byte) : String := "0x" ++ Bytes2Hex b

/-- Function `crypto.Keccak256`, also what `sha3.NewLegacyKeccak256()` returns from
`Sum(nil)` after one `Write`: the 32 bytes of the hash. -/
def Keccak256 (data : List Byte) : List Byte := (Keccak256Hash data).bytes

/-- Function `common.BytesToAddress`: the last 20 bytes of `b`, or `b` after zeros
when it is shorter. -/
def BytesToAddress (b : List Byte) : Address :=
  ⟨List.replicate (20 - b.length) 0 ++ b.drop (b.length - 20), by
    simp only [List.length_append, List.length_replicate, List.length_drop]
    omega⟩

/-- Function `crypto.PubkeyToAddress` on the bytes `FromECDSAPub` gives for the
key (`0x04`, X, Y): `BytesToAddress(Keccak256(pubBytes[1:])[12:])`. -/
def PubkeyToAddress (pubBytes : List Byte) : Address :=
  BytesToAddress ((Keccak256 (pubBytes.drop 1)).drop 12)

/-- Method `Address.hex`: `0x` and the 40 lower-case digits. -/
def Address.hex (a : Address) : List Char := '0' :: 'x' :: hexChars a.bytes

/-- The body of the loop of `checksumHex` at index `i` of `buf`: a letter whose
nibble of the hash exceeds 7 is put in upper case (`buf[i] -= 32`). -/
def checksumChar (hash : List Byte) (i : Nat) (c : Char) : Char :=
  let hashByte := (hash.getD ((i - 2) / 2) 0).val
  let nibble := if i % 2 = 0 then hashByte >>> 4 else hashByte &&& 0xf
  if c.toNat > '9'.toNat ∧ nibble > 7 then Char.ofNat (c.toNat - 32) else c

/-- Method `Address.checksumHex`: the EIP-55 rendering, whose case is decided by
the Keccak-256 hash of the 40 lower-case digits. -/
def Address.checksumHex (a : Address) : List Char :=
  let buf := a.hex
  let hash := Keccak256 ((buf.drop 2).map fun c => Fin.ofNat c.toNat)
  buf.enum.map fun p => if p.1 < 2 then p.2 else checksumChar hash p.1 p.2

/-- Method `Address.Hex()`: `string(a.checksumHex())`. -/
def Address.Hex (a : Address) : String := String.mk a.checksumHex

/-- The string `address` of line 61 of `create-wallet`, from the 65 bytes
`publicKeyBytes` of the key. -/
def walletAddress (publicKeyBytes : List Byte) : String :=
  (PubkeyToAddress publicKeyBytes).Hex

/-- The slice `fullHash` of line 74: the hash of `publicKeyBytes[1:]`. -/
def fullHash (publicKeyBytes : List Byte) : List Byte := Keccak256 (publicKeyBytes.drop 1)

/-- The string `addressFromHash` of line 80: `hexutil.Encode(fullHash[12:])`. -/
def addressFromHash (publicKeyBytes : List Byte) : String :=
  hexutilEncode ((fullHash publicKeyBytes).drop 12)

/-- The test `address == addressFromHash` of step 7: `true` prints the line of
success, `false` the line of failure. -/
def addressesEqual (publicKeyBytes : List Byte) : Bool :=
  decide (walletAddress publicKeyBytes = addressFromHash publicKeyBytes)

/-- The bytes of a hex string of an even number of digits (for sample keys). -/
def bytesOfNat : Nat → Nat → List Byte
  | 0, _ => []
  | k + 1, n => bytesOfNat k (n / 256) ++ [Fin.ofNat (n % 256)]

/-- The 65 bytes `FromECDSAPub` gives for the public key of the private key 1,
the generator of secp256k1. -/
def generatorKeyBytes : List Byte :=
  4 :: (bytesOfNat 32 0x79BE667EF9DCBBAC55A06295CE870B07029BFCDB2DCE28D959F2815B16F81798 ++
    bytesOfNat 32 0x483ADA7726A3C4655DA4FBFC0E1108A8FD17B448A68554199C47D08FFB10D4B8)

/-- The bytes `[]byte("transfer(address,uint256)")` of line 83 of `token-transfer`. -/
def transferFnSignature : List Byte := stringBytes "transfer(address,uint256)"

/-- The selector `hash.Sum(nil)[:4]` of line 88. -/
def methodID : List Byte := (Keccak256 transferFnSignature).take 4

/-- Function `common.LeftPadBytes(slice, l)`. -/
def LeftPadBytes (slice : List Byte) (l : Nat) : List Byte :=
  if l ≤ slice.length then slice else List.replicate (l - slice.length) 0 ++ slice

/-- Method `big.Int.Bytes()` of a non-negative integer: its big-endian bytes,
without leading zeros. -/
def bigIntBytes (a : Nat) : List Byte := ((Nat.digits 256 a).reverse).map Fin.ofNat

/-- The call data assembled in lines 92-106 for the recipient `toAddress` and the
integer `amount`. -/
def callData (toAddress : Address) (amount : Nat) : List Byte :=
  let paddedAddress := LeftPadBytes toAddress.bytes 32
  let paddedAmount := LeftPadBytes (bigIntBytes amount) 32
  ([] ++ methodID) ++ paddedAddress ++ paddedAmount

/-- The ABI encoding of a `uint256`: 32 bytes, big-endian. -/
def abiUint256 (a : Nat) : List Byte :=
  (List.range 32).map fun i => Fin.ofNat (a / 256 ^ (31 - i) % 256)

/-- The ABI encoding of an `address`: 12 zero bytes and the 20 bytes. -/
def abiAddress (a : Address) : List Byte := List.replicate 12 0 ++ a.bytes

/-- The standard encoding of a call `transfer(address,uint256)`: the selector
`a9059cbb` and the two encoded arguments. -/
def abiEncodeTransfer (recipient : Address) (amount : Nat) : List Byte :=
  [0xa9, 0x05, 0x9c, 0xbb] ++ abiAddress recipient ++ abiUint256 amount

/-- The recipient of line 74, `0x4592d8f8d7b001e72cb26a73e4fa1806a51ac79d`. -/
def toAddress : Address :=
  ⟨bytesOfNat 20 0x4592d8f8d7b001e72cb26a73e4fa1806a51ac79d, by decide⟩

/-! ## `waitForReceipt` (`deploy-contract`, `execute-contract`) -/

/-- The error of a poll: the sentinel `ethereum.NotFound`, or any other error. -/
inductive RpcError
  | NotFound
  | other (msg : String)
deriving DecidableEq

/-- The fields of `types.Receipt` the callers read. -/
structure Receipt where
  Status : Nat
  BlockNumber : Nat
  GasUsed : Nat
deriving DecidableEq

/-- A Go result pair `(*types.Receipt, error)`; `none` is `nil`. -/
structure Response where
  receipt : Option Receipt
  err : Option RpcError
deriving DecidableEq

/-- Method `ethclient.Client.TransactionReceipt` on what the RPC call
`eth_getTransactionReceipt` produced: an answer without receipt and without
error becomes `ethereum.NotFound`, every other answer is passed on. -/
def TransactionReceipt (rpc : Response) : Response :=
  if rpc.err = none ∧ rpc.receipt = none then ⟨none, some .NotFound⟩ else rpc

/-- What a call of `waitForReceipt` did on the answers it was given: the pair it
returned (`none` while it is still in its loop, the answers used up), the
number of polls answered, the number of `time.Sleep(1 * time.Second)`, and
what it printed. -/
structure Waited where
  returned : Option Response
  polls : Nat
  sleeps : Nat
  printed : List String
deriving DecidableEq

/-- Function `waitForReceipt` of `execute-contract` (lines 177-192), the node
answering the successive polls with `answers`. -/
def executeWaitForReceipt : List Response → Waited
  | [] => ⟨none, 0, 0, []⟩
  | rpc :: rest =>
    let r := TransactionReceipt rpc
    if r.err = none then ⟨some ⟨r.receipt, none⟩, 1, 0, []⟩
    else if r.err ≠ some .NotFound then ⟨some ⟨none, r.err⟩, 1, 0, []⟩
    else
      let w := executeWaitForReceipt rest
      ⟨w.returned, w.polls + 1, w.sleeps + 1, w.printed⟩

/-- The loop of `waitForReceipt` of `deploy-contract` (lines 138-155), which
prints a dot after each sleep. -/
def deployWaitLoop : List Response → Waited
  | [] => ⟨none, 0, 0, []⟩
  | rpc :: rest =>
    let r := TransactionReceipt rpc
    if r.err = none then ⟨some ⟨r.receipt, none⟩, 1, 0, []⟩
    else if r.err ≠ some .NotFound then ⟨some ⟨none, r.err⟩, 1, 0, []⟩
    else
      let w := deployWaitLoop rest
      ⟨w.returned, w.polls + 1, w.sleeps + 1, "." :: w.printed⟩

/-- Function `waitForReceipt` of `deploy-contract` (lines 134-155). -/
def deployWaitForReceipt (answers : List Response) : Waited :=
  let w := deployWaitLoop answers
  ⟨w.returned, w.polls, w.sleeps, "正在等待交易确认..." :: w.printed⟩

/-- An answer for a transaction that is not mined yet. -/
def pendingAnswer : Response := ⟨none, none⟩

/-- An answer with the receipt of a mined transaction. -/
def minedAnswer : Response := ⟨some ⟨1, 6920583, 21000⟩, none⟩

/-- An answer that is a transport error. -/
def failedAnswer : Response := ⟨none, some (.other "connection refused")⟩

/-! ## `IsValidAddress` (`pkg/common`) -/

/-- Function `has0xPrefix` of go-ethereum `common`, on the bytes of the string. -/
def has0xPrefix (str : List Byte) : Bool :=
  match str with
  | c0 :: c1 :: _ => c0 == 48 && (c1 == 120 || c1 == 88)
  | _ => false

/-- Function `isHexCharacter`: `0-9`, `a-f` or `A-F`. -/
def isHexCharacter (c : Byte) : Bool :=
  (48 ≤ c.val && c.val ≤ 57) || (97 ≤ c.val && c.val ≤ 102) || (65 ≤ c.val && c.val ≤ 70)

/-- The loop of `isHex` over the bytes, which returns `false` at the first byte
that is not a hex character. -/
def isHexLoop : List Byte → Bool
  | [] => true
  | c :: cs => if !isHexCharacter c then false else isHexLoop cs

/-- Function `isHex`: an even number of hex characters. -/
def isHex (str : List Byte) : Bool :=
  if str.length % 2 ≠ 0 then false else isHexLoop str

/-- Function `common.IsHexAddress`. -/
def IsHexAddress (s : List Byte) : Bool :=
  let s := if has0xPrefix s then s.drop 2 else s
  s.length == 2 * 20 && isHex s

/-- Function `IsValidAddress` of `pkg/common/client.go`. -/
def IsValidAddress (address : List Byte) : Bool := IsHexAddress address

/-- The string without an optional prefix `0x` or `0X`, as the description of
`IsValidAddress` has it. -/
def withoutPrefix : List Byte → List Byte
  | 48 :: 120 :: rest => rest
  | 48 :: 88 :: rest => rest
  | s => s

/-- A hexadecimal digit of either case, as the description has it. -/
def IsHexDigit (c : Byte) : Prop := c ∈ stringBytes "0123456789abcdefABCDEF"

/-- The description of `IsValidAddress`: after the optional prefix, exactly 40
hexadecimal digits. -/
def ValidAddressText (s : List Byte) : Prop :=
  (withoutPrefix s).length = 40 ∧ ∀ c ∈ withoutPrefix s, IsHexDigit c

/-! ## `EtherToWei` (`pkg/common`) and `big.Float` -/

/-- A finite `big.Float`: the value `mant * 2 ^ exp`, negated when `neg`, with a
precision of `prec` bits (0 for the zero value `new(big.Float)`). -/
structure BigFloat where
  prec : Nat
  neg : Bool
  mant : Nat
  exp : Int
deriving DecidableEq

/-- The number of bits of a mantissa. -/
def bitLen (m : Nat) : Nat := if m = 0 then 0 else Nat.log2 m + 1

/-- Rounding of a mantissa to `prec` bits in the mode `ToNearestEven`: the
rounded mantissa and the number of bits shifted out. -/
def roundMant (prec m : Nat) : Nat × Nat :=
  if bitLen m ≤ prec then (m, 0)
  else
    let s := bitLen m - prec
    let q := m / 2 ^ s
    let r := m % 2 ^ s
    if r > 2 ^ (s - 1) ∨ (r = 2 ^ (s - 1) ∧ q % 2 = 1) then (q + 1, s) else (q, s)

/-- Function `big.NewFloat(x)` for the `float64` nearest to the non-negative
integer `x`: precision 53. -/
def NewFloat (x : Nat) : BigFloat :=
  ⟨53, false, (roundMant 53 x).1, (roundMant 53 x).2⟩

/-- Method `z.Mul(x, y)`: the product rounded to the precision of `z`, which is
the larger of the precisions of `x` and `y` when `z` has none. -/
def BigFloat.Mul (z x y : BigFloat) : BigFloat :=
  let prec := if z.prec = 0 then max x.prec y.prec else z.prec
  ⟨prec, x.neg != y.neg, (roundMant prec (x.mant * y.mant)).1,
    x.exp + y.exp + (roundMant prec (x.mant * y.mant)).2⟩

/-- Method `x.Int(nil)`: the value truncated towards zero. -/
def BigFloat.Int (x : BigFloat) : ℤ :=
  let mag : Nat := if 0 ≤ x.exp then x.mant * 2 ^ x.exp.toNat else x.mant / 2 ^ (-x.exp).toNat
  if x.neg then -(mag : ℤ) else (mag : ℤ)

/-- Function `EtherToWei` of `pkg/common/client.go`. -/
def EtherToWei (ether : BigFloat) : ℤ :=
  let wei : BigFloat := ⟨0, false, 0, 0⟩
  let wei := wei.Mul ether (NewFloat 1000000000000000000)
  wei.Int

/-! ## The amounts of `token-transfer` and `eth-transfer` -/

/-- The value of a decimal digit, `none` for any other character. -/
def decimalDigit (c : Char) : Option Nat :=
  if '0'.toNat ≤ c.toNat ∧ c.toNat ≤ '9'.toNat then some (c.toNat - '0'.toNat) else none

/-- The scan of the digits of a number in base 10, from the value `z` read so
far; `none` at a character that is not a digit. -/
def scanDecimal : Nat → List Char → Option Nat
  | z, [] => some z
  | z, c :: cs =>
    match decimalDigit c with
    | none => none
    | some d => scanDecimal (z * 10 + d) cs

/-- Method `big.Int.SetString(s, 10)`: an optional sign and at least one digit,
the whole string being the number; `none` is the result `ok = false`. -/
def SetString10 (s : String) : Option ℤ :=
  match s.toList with
  | '-' :: cs => if cs = [] then none else (scanDecimal 0 cs).map fun n => -(n : ℤ)
  | '+' :: cs => if cs = [] then none else (scanDecimal 0 cs).map fun n => (n : ℤ)
  | cs => if cs = [] then none else (scanDecimal 0 cs).map fun n => (n : ℤ)

/-- The integer `amount` of lines 96-97 of `token-transfer`. -/
def tokenAmount : Option ℤ := SetString10 "1000000000000000000000"

/-- The conversion of an integer to `int64`: its value modulo `2^64` in the
signed range. -/
def toInt64 (x : ℤ) : ℤ := (x + 2 ^ 63) % 2 ^ 64 - 2 ^ 63

/-- Function `big.NewInt(x)`, whose parameter is an `int64`. -/
def NewInt (x : ℤ) : ℤ := toInt64 x

/-- The value `big.NewInt(1000000000000000000)` of line 67 of `eth-transfer`. -/
def transferValue : ℤ := NewInt 1000000000000000000

/-! ## The decoder -/

theorem getArguments_ItemSet (data : List Byte) :
    StoreABI.getArguments "ItemSet" data = .ok ItemSet.Inputs := by
  rfl

theorem toCamelCase_value : ToCamelCase "value" = "Value" := by decide

theorem length_take_32 (data : List Byte) (h : 32 ≤ data.length) :
    (data.take 32).length = 32 := by
  simp [h]

/-- With at least 32 bytes of data the call succeeds and assigns the first 32
bytes to `Value`, leaving `Key` as it was. -/
theorem unpack_ItemSet_ok (ev : ItemSetEvent) (data : List Byte) (h : 32 ≤ data.length) :
    StoreABI.UnpackIntoInterface ev "ItemSet" data =
      .ok { ev with Value := ⟨data.take 32, length_take_32 data h⟩ } := by
  have hne : data.length ≠ 0 := by omega
  have h2 : ¬ (0 * 32 + 32 > data.length) := by omega
  simp only [ABI.UnpackIntoInterface, getArguments_ItemSet, ItemSet, Unpack, hne, if_false,
    UnpackValues, NonIndexed, List.filter, unpackLoop, toGoType, h2, Copy]
  simp [copyTupleLoop, toCamelCase_value, ItemSetEvent.setField, setBytes32, h]

/-- With fewer than 32 bytes of data the call fails, with the error of `Unpack` for
empty data and the error of `toGoType` otherwise. -/
theorem unpack_ItemSet_error (ev : ItemSetEvent) (data : List Byte) (h : data.length < 32) :
    StoreABI.UnpackIntoInterface ev "ItemSet" data =
      .error (if data.length = 0 then .emptyWhileExpected
        else .lengthInsufficient data.length 32) := by
  by_cases h0 : data.length = 0
  · simp [ABI.UnpackIntoInterface, getArguments_ItemSet, ItemSet, Unpack, h0, NonIndexed]
  · have h2 : (0 * 32 + 32 > data.length) := by omega
    simp only [ABI.UnpackIntoInterface, getArguments_ItemSet, ItemSet, Unpack, h0, if_false,
      UnpackValues, NonIndexed, List.filter, unpackLoop, toGoType, h2, if_true]

theorem decodeLog_ok (vLog : Log) (h : 32 ≤ vLog.Data.length) :
    decodeLog vLog = .ok ⟨Hash.zero, ⟨vLog.Data.take 32, length_take_32 vLog.Data h⟩⟩ := by
  simp [decodeLog, unpack_ItemSet_ok _ _ h, ItemSetEvent.init]

theorem decodeLog_error (vLog : Log) (h : vLog.Data.length < 32) :
    decodeLog vLog =
      .error (if vLog.Data.length = 0 then .emptyWhileExpected
        else .lengthInsufficient vLog.Data.length 32) := by
  simp [decodeLog, unpack_ItemSet_error _ _ h]

theorem decodeLog_ok_iff (vLog : Log) :
    (∃ ev, decodeLog vLog = .ok ev) ↔ 32 ≤ vLog.Data.length := by
  by_cases h : 32 ≤ vLog.Data.length
  · simp [decodeLog_ok vLog h, h]
  · have h1 : vLog.Data.length < 32 := by omega
    simp [decodeLog_error vLog h1, h]

/-! ## Hex rendering determines the bytes -/

theorem hexDigit_injective :
    ∀ a b : Fin 16, hexDigit a.val = hexDigit b.val → a = b := by
  decide

theorem hexByte_injective (a b : Byte) (h : hexByte a = hexByte b) : a = b := by
  simp only [hexByte, List.cons.injEq, and_true] at h
  have ha1 : a.val / 16 < 16 := by omega
  have hb1 : b.val / 16 < 16 := by omega
  have ha2 : a.val % 16 < 16 := by omega
  have hb2 : b.val % 16 < 16 := by omega
  have e1 := hexDigit_injective ⟨a.val / 16, ha1⟩ ⟨b.val / 16, hb1⟩ h.1
  have e2 := hexDigit_injective ⟨a.val % 16, ha2⟩ ⟨b.val % 16, hb2⟩ h.2
  simp only [Fin.mk.injEq] at e1 e2
  apply Fin.ext
  omega

theorem hexChars_injective : ∀ a b : List Byte, hexChars a = hexChars b → a = b
  | [], [], _ => rfl
  | [], _ :: _, h => by simp [hexChars, hexByte] at h
  | _ :: _, [], h => by simp [hexChars, hexByte] at h
  | x :: xs, y :: ys, h => by
    simp only [hexChars, hexByte, List.cons_append, List.nil_append, List.cons.injEq] at h
    have hxy : x = y := hexByte_injective x y (by simp [hexByte, h.1, h.2.1])
    rw [hxy, hexChars_injective xs ys h.2.2]

/-- Two hashes with the same `Hex()` rendering are the same 32 bytes. -/
theorem Hash.Hex_injective (a b : Hash) (h : a.Hex = b.Hex) : a = b := by
  have h1 : (Hash.Hex a).data = (Hash.Hex b).data := by rw [h]
  simp only [Hash.Hex, Bytes2Hex, String.data_append, List.append_cancel_left_eq] at h1
  have h2 := hexChars_injective _ _ h1
  cases a; cases b
  simp_all

/-! ## The topics step -/

theorem appendTopics_eq (topics : List String) (ts : List Hash) :
    appendTopics topics ts = topics ++ ts.map Hash.Hex := by
  induction ts generalizing topics with
  | nil => simp [appendTopics]
  | cons t ts ih => simp [appendTopics, ih]

/-- The slice built by the loop has one entry for each topic, its `Hex()`
rendering, in the same order. -/
theorem buildTopics_eq (ts : List Hash) : buildTopics ts = ts.map Hash.Hex := by
  simp [buildTopics, appendTopics_eq]

theorem historyTopics_nil (o : List Out) (vLog : Log) (h : vLog.Topics = []) :
    historyTopics o vLog = ⟨o, some (.panicIndex 0 0)⟩ := by
  simp [historyTopics, buildTopics_eq, h, index]

theorem historyTopics_cons (o : List Out) (vLog : Log) (t0 : Hash) (rest : List Hash)
    (h : vLog.Topics = t0 :: rest) :
    historyTopics o vLog =
      ⟨o ++ [.eventSignature t0.Hex] ++
        (match rest with
          | [] => []
          | t1 :: _ => [.keyIndexed t1.Hex, .allIndexed (rest.map Hash.Hex)]), none⟩ := by
  cases rest with
  | nil => simp [historyTopics, buildTopics_eq, h, index]
  | cons t1 r => simp [historyTopics, buildTopics_eq, h, index]

theorem eventsTopics_nil (o : List Out) (vLog : Log) (h : vLog.Topics = []) :
    eventsTopics o vLog = ⟨o, some (.panicIndex 0 0)⟩ := by
  simp [eventsTopics, buildTopics_eq, h, index]

theorem eventsTopics_cons (o : List Out) (vLog : Log) (t0 : Hash) (rest : List Hash)
    (h : vLog.Topics = t0 :: rest) :
    eventsTopics o vLog =
      ⟨o ++ [.eventSignature t0.Hex] ++
        (match rest with
          | [] => [.rule]
          | t1 :: _ => [.indexedParams (rest.map Hash.Hex), .keyFromTopic t1.Hex, .rule]),
        none⟩ := by
  cases rest with
  | nil => simp [eventsTopics, buildTopics_eq, h, index]
  | cons t1 r => simp [eventsTopics, buildTopics_eq, h, index]

/-! ## The loop bodies by cases -/

theorem historyBody_error (i : Nat) (vLog : Log) (h : vLog.Data.length < 32) :
    historyBody i vLog =
      ⟨historyHeader i vLog ++
        [.decodeFailed (if vLog.Data.length = 0 then .emptyWhileExpected
          else .lengthInsufficient vLog.Data.length 32)], none⟩ := by
  simp [historyBody, decodeLog_error vLog h]

theorem historyBody_ok (i : Nat) (vLog : Log) (h : 32 ≤ vLog.Data.length) :
    historyBody i vLog =
      historyTopics (historyHeader i vLog ++
        [.valueNonIndexed (Bytes2Hex (vLog.Data.take 32))]) vLog := by
  simp [historyBody, decodeLog_ok vLog h]

theorem eventsBody_error (vLog : Log) (h : vLog.Data.length < 32) :
    eventsBody vLog =
      ⟨eventsHeader vLog,
        some (.fatalDecode (if vLog.Data.length = 0 then .emptyWhileExpected
          else .lengthInsufficient vLog.Data.length 32))⟩ := by
  simp [eventsBody, decodeLog_error vLog h]

theorem eventsBody_ok (vLog : Log) (h : 32 ≤ vLog.Data.length) :
    eventsBody vLog =
      eventsTopics (eventsHeader vLog ++
        eventsDecoded ⟨Hash.zero, ⟨vLog.Data.take 32, length_take_32 vLog.Data h⟩⟩) vLog := by
  simp [eventsBody, decodeLog_ok vLog h]

/-! ## Claims about the decoding step -/

theorem bytes2Hex_zero :
    Bytes2Hex (List.replicate 32 0) = String.mk (List.replicate 64 '0') := by
  decide

/-- Claim C1, as stated, fails: `foreignLog` carries a `topics[0]` that is the
identifier of no event of `StoreABI`, yet both programs decode it as `ItemSet`,
print its value and go on to the topics step without any error. -/
theorem foreign_topic_decoded_as_ItemSet :
    (∀ e ∈ StoreABI.Events, foreignLog.Topics[0]? ≠ some e.ID) ∧
    decodeLog foreignLog = .ok ⟨Hash.zero, Hash.zero⟩ ∧
    historyBody 0 foreignLog =
      ⟨historyHeader 0 foreignLog ++
        [.valueNonIndexed (Bytes2Hex (List.replicate 32 0)),
         .eventSignature Hash.zero.Hex], none⟩ ∧
    eventsBody foreignLog =
      ⟨eventsHeader foreignLog ++
        [.keyHex (Bytes2Hex (List.replicate 32 0)),
         .valueHex (Bytes2Hex (List.replicate 32 0)),
         .eventSignature Hash.zero.Hex, .rule], none⟩ := by
  refine ⟨?_, ?_, ?_, ?_⟩
  · decide!
  · decide
  · decide
  · decide

/-- Claim C1, amended: in both programs the outcome of decoding a record is a
function of its data payload alone. With at least 32 bytes of data the record
is decoded as `ItemSet` (key zero, value the first 32 bytes) whatever its
`topics[0]`; with less the call fails with a length error of the `abi`
package, which `query-history-events` logs and `contract-events` dies of. No
unknown-event error occurs. -/
theorem decoding_depends_on_data_only (i : Nat) (vLog : Log) :
    (decodeLog vLog).map (fun ev => (ev.Key.bytes, ev.Value.bytes)) =
      (if 32 ≤ vLog.Data.length then .ok (List.replicate 32 0, vLog.Data.take 32)
       else if vLog.Data.length = 0 then .error .emptyWhileExpected
       else .error (.lengthInsufficient vLog.Data.length 32)) ∧
    (∀ err, Out.decodeFailed err ∈ (historyBody i vLog).out ↔ decodeLog vLog = .error err) ∧
    (∀ err, (eventsBody vLog).exit = some (.fatalDecode err) ↔
      decodeLog vLog = .error err) := by
  by_cases h : 32 ≤ vLog.Data.length
  · refine ⟨?_, ?_, ?_⟩
    · simp [decodeLog_ok vLog h, h, Except.map, Hash.zero]
    · intro err
      rw [historyBody_ok i vLog h, decodeLog_ok vLog h]
      cases hT : vLog.Topics with
      | nil => simp [historyTopics_nil _ _ hT, historyHeader]
      | cons t0 rest =>
        rw [historyTopics_cons _ _ _ _ hT]
        cases rest <;> simp [historyHeader]
    · intro err
      rw [eventsBody_ok vLog h, decodeLog_ok vLog h]
      cases hT : vLog.Topics with
      | nil => simp [eventsTopics_nil _ _ hT]
      | cons t0 rest => simp [eventsTopics_cons _ _ _ _ hT]
  · have h1 : vLog.Data.length < 32 := by omega
    refine ⟨?_, ?_, ?_⟩
    · by_cases h0 : vLog.Data.length = 0 <;> simp [decodeLog_error vLog h1, h, h0, Except.map]
    · intro err
      rw [historyBody_error i vLog h1, decodeLog_error vLog h1]
      simp only [List.mem_append, List.mem_singleton, Out.decodeFailed.injEq,
        Except.error.injEq, historyHeader]
      constructor
      · intro hm
        rcases hm with hm | hm
        · simp at hm
        · exact hm.symm
      · intro hm
        exact Or.inr hm.symm
    · intro err
      rw [eventsBody_error vLog h1, decodeLog_error vLog h1]
      simp

/-- Claim C2, failing input: `bareLog` has no topics and 32 bytes of data. Both
programs decode it, print the decoded value and then read `topics[0]` of an
empty slice: the process ends in the panic `index out of range [0] with
length 0`. -/
theorem bareLog_index_out_of_range :
    historyBody 0 bareLog =
      ⟨historyHeader 0 bareLog ++ [.valueNonIndexed (Bytes2Hex (List.replicate 32 7))],
        some (.panicIndex 0 0)⟩ ∧
    eventsBody bareLog =
      ⟨eventsHeader bareLog ++
        [.keyHex (Bytes2Hex (List.replicate 32 0)),
         .valueHex (Bytes2Hex (List.replicate 32 7)),
         .valueString (List.replicate 32 7)],
        some (.panicIndex 0 0)⟩ := by
  constructor <;> decide

/-- Claim C3, as stated, fails: `wideLog` has three topics and 64 bytes of data,
and is decoded without error, the value being the first 32 bytes of data. -/
theorem wideLog_decodes :
    wideLog.Topics.length = 3 ∧ wideLog.Data.length = 64 ∧
    decodeLog wideLog = .ok ⟨Hash.zero, Hash.fill 9⟩ := by
  refine ⟨rfl, ?_, ?_⟩
  · decide
  · decide

/-- Claim C3, amended: decoding a record succeeds exactly when its data payload
has at least 32 bytes. The topics play no part, so no number of topics is
rejected; a payload longer than 32 bytes is accepted and its first 32 bytes
are the value; a payload shorter than 32 bytes is rejected with a length
error of the `abi` package. -/
theorem decode_succeeds_iff_32_bytes (vLog : Log) :
    ((∃ ev, decodeLog vLog = .ok ev) ↔ 32 ≤ vLog.Data.length) ∧
    (∀ topics, decodeLog { vLog with Topics := topics } = decodeLog vLog) ∧
    (∀ ev, decodeLog vLog = .ok ev → ev.Value.bytes = vLog.Data.take 32) ∧
    (∀ err, decodeLog vLog = .error err →
      vLog.Data.length < 32 ∧
      (err = .emptyWhileExpected ∨ err = .lengthInsufficient vLog.Data.length 32)) := by
  refine ⟨decodeLog_ok_iff vLog, fun _ => rfl, ?_, ?_⟩
  · intro ev hev
    have h : 32 ≤ vLog.Data.length := (decodeLog_ok_iff vLog).mp ⟨ev, hev⟩
    rw [decodeLog_ok vLog h] at hev
    cases hev
    rfl
  · intro err herr
    by_cases h : 32 ≤ vLog.Data.length
    · rw [decodeLog_ok vLog h] at herr
      cases herr
    · have h1 : vLog.Data.length < 32 := by omega
      rw [decodeLog_error vLog h1] at herr
      refine ⟨h1, ?_⟩
      by_cases h0 : vLog.Data.length = 0
      · left
        simpa [h0] using herr.symm
      · right
        simpa [h0] using herr.symm

/-- Claim C4: for every 32-byte value `v`, the ABI encoding of the non-indexed
argument is decoded by `UnpackIntoInterface(&event, "ItemSet", data)` without
error, and the `Value` field of the result is `v` (the other field is
untouched); so is every record that carries those 32 bytes as data, the
synthetic log of `ItemSet(key, v)` among them. -/
theorem value_roundtrip (key v : Hash) (ev : ItemSetEvent) :
    StoreABI.UnpackIntoInterface ev "ItemSet" (packItemSetData v) =
      .ok { ev with Value := v } ∧
    decodeLog (syntheticLog key v) = .ok ⟨Hash.zero, v⟩ ∧
    (∀ vLog : Log, vLog.Data = v.bytes → decodeLog vLog = .ok ⟨Hash.zero, v⟩) := by
  have hp : packItemSetData v = v.bytes := by
    simp [packItemSetData, RightPadBytes, v.size]
  have hlen : 32 ≤ v.bytes.length := by rw [v.size]
  have htake : v.bytes.take 32 = v.bytes := by
    rw [List.take_of_length_le]
    rw [v.size]
  have hgen : ∀ e : ItemSetEvent,
      StoreABI.UnpackIntoInterface e "ItemSet" v.bytes = .ok { e with Value := v } := by
    intro e
    rw [unpack_ItemSet_ok e v.bytes hlen]
    cases v
    simp_all
  refine ⟨?_, ?_, ?_⟩
  · rw [hp]
    exact hgen ev
  · simp only [decodeLog, syntheticLog, hp]
    exact hgen _
  · intro vLog hd
    simp only [decodeLog, hd]
    exact hgen _

/-- Claim C5, as stated, fails in its last part: `zeroKeyLog` is the record of an
`ItemSet` event whose key is the all-zero `bytes32`; the `Key` of the decoded
struct, which `contract-events` prints, equals that key. -/
theorem zero_key_is_the_printed_key :
    ∃ ev key, decodeLog zeroKeyLog = .ok ev ∧ zeroKeyLog.Topics[1]? = some key ∧
      ev.Key = key ∧ (∃ tail, (eventsBody zeroKeyLog).out =
        eventsHeader zeroKeyLog ++ Out.keyHex (Bytes2Hex key.bytes) :: tail) := by
  refine ⟨⟨Hash.zero, Hash.fill 5⟩, Hash.zero, by decide, rfl, rfl, ?_⟩
  have h : 32 ≤ zeroKeyLog.Data.length := by decide
  rw [eventsBody_ok zeroKeyLog h, eventsTopics_cons _ _ ItemSet.ID [Hash.zero] rfl]
  simp [eventsDecoded]

/-- Claim C5, amended: for every record that decodes, the `Value` field is the
first 32 bytes of the data payload and the `Key` field is left at its
all-zero initial value, whatever the topics and the data are. The `Key` line
of `contract-events` therefore always shows 64 zero digits: it is the event's
key `topics[1]` only for an event whose key is itself all-zero, and differs
from every other key. -/
theorem key_field_left_zero (vLog : Log) (ev : ItemSetEvent) (h : decodeLog vLog = .ok ev) :
    ev.Value.bytes = vLog.Data.take 32 ∧
    ev.Key = Hash.zero ∧
    (∃ tail, (eventsBody vLog).out =
      eventsHeader vLog ++ Out.keyHex (String.mk (List.replicate 64 '0')) :: tail) ∧
    (∀ key, vLog.Topics[1]? = some key → (ev.Key = key ↔ key = Hash.zero)) := by
  have hlen : 32 ≤ vLog.Data.length := (decodeLog_ok_iff vLog).mp ⟨ev, h⟩
  have hev := h
  rw [decodeLog_ok vLog hlen] at hev
  cases hev
  refine ⟨rfl, rfl, ?_, ?_⟩
  · rw [eventsBody_ok vLog hlen]
    cases hT : vLog.Topics with
    | nil =>
      rw [eventsTopics_nil _ _ hT]
      simp only [eventsDecoded, Hash.zero, bytes2Hex_zero]
      simp
    | cons t0 rest =>
      rw [eventsTopics_cons _ _ _ _ hT]
      simp only [eventsDecoded, Hash.zero, bytes2Hex_zero]
      simp
  · intro key _
    constructor
    · intro hk
      exact hk.symm
    · intro hk
      exact hk.symm

/-- Witness for claim C5: `goodLog 0` decodes, and its decoded key is zero. -/
theorem key_field_left_zero_witness :
    decodeLog (goodLog 0) = .ok ⟨Hash.zero, Hash.fill 3⟩ ∧
    (⟨Hash.zero, Hash.fill 3⟩ : ItemSetEvent).Key = Hash.zero :=
  ⟨by decide, (key_field_left_zero (goodLog 0) ⟨Hash.zero, Hash.fill 3⟩ (by decide)).2.1⟩

/-! ## Claims about the topics step -/

/-- Claim C6: for a record with `n ≥ 1` topics (and data that decodes, so that the
topics step is reached) the slice `topics` has `n` entries, entry `j` being
the `Hex()` rendering of `topics[j]`, which is `0x` followed by the hex
digits and determines the 32 bytes. Both programs print `topics[0]` as the
event signature; with `n > 1` they print `topics[1]` as the key and the
renderings of `topics[1..]`, in order, as the indexed parameters; with
`n = 1` they print neither. -/
theorem topics_reported (i : Nat) (vLog : Log) (t0 : Hash) (rest : List Hash)
    (hT : vLog.Topics = t0 :: rest) (hD : 32 ≤ vLog.Data.length) :
    (buildTopics vLog.Topics).length = rest.length + 1 ∧
    (∀ j : Nat, (buildTopics vLog.Topics)[j]? = (vLog.Topics[j]?).map Hash.Hex) ∧
    (∀ t : Hash, t.Hex = "0x" ++ Bytes2Hex t.bytes ∧ ∀ u : Hash, t.Hex = u.Hex → t = u) ∧
    historyBody i vLog =
      ⟨historyHeader i vLog ++
        [.valueNonIndexed (Bytes2Hex (vLog.Data.take 32)), .eventSignature t0.Hex] ++
        (match rest with
          | [] => []
          | t1 :: _ => [.keyIndexed t1.Hex, .allIndexed (rest.map Hash.Hex)]), none⟩ ∧
    eventsBody vLog =
      ⟨eventsHeader vLog ++
        eventsDecoded ⟨Hash.zero, ⟨vLog.Data.take 32, length_take_32 vLog.Data hD⟩⟩ ++
        [.eventSignature t0.Hex] ++
        (match rest with
          | [] => [.rule]
          | t1 :: _ => [.indexedParams (rest.map Hash.Hex), .keyFromTopic t1.Hex, .rule]),
        none⟩ := by
  refine ⟨?_, ?_, ?_, ?_, ?_⟩
  · simp [buildTopics_eq, hT]
  · intro j
    simp [buildTopics_eq]
  · intro t
    exact ⟨rfl, fun u hu => Hash.Hex_injective t u hu⟩
  · rw [historyBody_ok i vLog hD, historyTopics_cons _ _ _ _ hT]
    simp
  · rw [eventsBody_ok vLog hD, eventsTopics_cons _ _ _ _ hT]

/-- Witness for claim C6: `goodLog 0` has two topics and data that decodes. -/
theorem topics_reported_witness :
    (goodLog 0).Topics = [ItemSet.ID, Hash.fill 1] ∧ 32 ≤ (goodLog 0).Data.length ∧
    (buildTopics (goodLog 0).Topics).length = [Hash.fill 1].length + 1 :=
  ⟨rfl, by decide, (topics_reported 0 (goodLog 0) ItemSet.ID [Hash.fill 1] rfl (by decide)).1⟩

/-- Claim C7: two `ItemSet` records with the same data payload and different keys
`topics[1]` decode to the same result, which no choice of topics changes; when
the data decodes, the lines `query-history-events` prints after the header
agree in the value and the event signature and differ in the key lines
alone, each record showing its own `topics[1]`. -/
theorem same_data_differ_in_key_only (i : Nat) (l1 l2 : Log) (sig a b : Hash)
    (hD : l1.Data = l2.Data) (h1 : l1.Topics = [sig, a]) (h2 : l2.Topics = [sig, b])
    (hab : a ≠ b) :
    decodeLog l1 = decodeLog l2 ∧
    (∀ topics, decodeLog { l1 with Topics := topics } = decodeLog l1) ∧
    (∀ ev, decodeLog l1 = .ok ev → ev.Value.bytes = l1.Data.take 32) ∧
    (32 ≤ l1.Data.length →
      historyBody i l1 =
        ⟨historyHeader i l1 ++
          [.valueNonIndexed (Bytes2Hex (l1.Data.take 32)), .eventSignature sig.Hex,
           .keyIndexed a.Hex, .allIndexed [a.Hex]], none⟩ ∧
      historyBody i l2 =
        ⟨historyHeader i l2 ++
          [.valueNonIndexed (Bytes2Hex (l1.Data.take 32)), .eventSignature sig.Hex,
           .keyIndexed b.Hex, .allIndexed [b.Hex]], none⟩ ∧
      a.Hex ≠ b.Hex) := by
  refine ⟨?_, fun _ => rfl, ?_, ?_⟩
  · simp [decodeLog, hD]
  · intro ev hev
    have h : 32 ≤ l1.Data.length := (decodeLog_ok_iff l1).mp ⟨ev, hev⟩
    rw [decodeLog_ok l1 h] at hev
    cases hev
    rfl
  · intro h
    have h' : 32 ≤ l2.Data.length := by rw [← hD]; exact h
    refine ⟨?_, ?_, ?_⟩
    · rw [historyBody_ok i l1 h, historyTopics_cons _ _ _ _ h1]
      simp
    · rw [historyBody_ok i l2 h', historyTopics_cons _ _ _ _ h2, hD]
      simp
    · intro hh
      exact hab (Hash.Hex_injective a b hh)

/-- Witness for claim C7: the logs of `ItemSet` for two keys and one value. -/
theorem same_data_differ_in_key_only_witness :
    decodeLog (syntheticLog (Hash.fill 1) (Hash.fill 3)) =
      decodeLog (syntheticLog (Hash.fill 2) (Hash.fill 3)) :=
  (same_data_differ_in_key_only 0 (syntheticLog (Hash.fill 1) (Hash.fill 3))
    (syntheticLog (Hash.fill 2) (Hash.fill 3)) ItemSet.ID (Hash.fill 1) (Hash.fill 2)
    rfl rfl rfl (by decide)).1

/-! ## The loop of `query-history-events` -/

theorem historyLoop_cons_continue (i : Nat) (l : Log) (rest : List Log)
    (h : (historyBody i l).exit = none) :
    historyLoop i (l :: rest) =
      ⟨(historyBody i l).out ++ (historyLoop (i + 1) rest).out,
        (historyLoop (i + 1) rest).exit⟩ := by
  rw [historyLoop]
  generalize historyBody i l = r at h
  cases r with
  | mk o e =>
    simp only at h
    subst h
    rfl

theorem historyLoop_cons_stop (i : Nat) (l : Log) (rest : List Log) (e : Exit)
    (h : (historyBody i l).exit = some e) :
    historyLoop i (l :: rest) = ⟨(historyBody i l).out, some e⟩ := by
  rw [historyLoop]
  generalize historyBody i l = r at h
  cases r with
  | mk o e1 =>
    simp only at h
    subst h
    rfl

/-- The body ends the process only in the panic at `topics[0]`, which takes data
that decodes and an empty list of topics. -/
theorem historyBody_exit (i : Nat) (l : Log) :
    (historyBody i l).exit =
      if 32 ≤ l.Data.length ∧ l.Topics = [] then some (.panicIndex 0 0) else none := by
  by_cases h : 32 ≤ l.Data.length
  · rw [historyBody_ok i l h]
    cases hT : l.Topics with
    | nil => simp [historyTopics_nil _ _ hT, h]
    | cons t0 rest => simp [historyTopics_cons _ _ _ _ hT]
  · have h1 : l.Data.length < 32 := by omega
    simp [historyBody_error i l h1, h]

/-- What the body shows of a record: its number, its position, and its value when
the data decodes. -/
theorem historyBody_views (i : Nat) (l : Log) :
    eventNumbers (historyBody i l).out = [i + 1] ∧
    blockNumbers (historyBody i l).out = [l.BlockNumber] ∧
    logIndices (historyBody i l).out = [l.Index] ∧
    valuesReported (historyBody i l).out =
      if 32 ≤ l.Data.length then [Bytes2Hex (l.Data.take 32)] else [] := by
  by_cases h : 32 ≤ l.Data.length
  · rw [historyBody_ok i l h]
    cases hT : l.Topics with
    | nil =>
      simp [historyTopics_nil _ _ hT, h, eventNumbers, blockNumbers, logIndices,
        valuesReported, historyHeader]
    | cons t0 rest =>
      rw [historyTopics_cons _ _ _ _ hT]
      cases rest <;>
        simp [h, eventNumbers, blockNumbers, logIndices, valuesReported, historyHeader]
  · have h1 : l.Data.length < 32 := by omega
    simp [historyBody_error i l h1, h, eventNumbers, blockNumbers, logIndices,
      valuesReported, historyHeader]

theorem views_append (a b : List Out) :
    eventNumbers (a ++ b) = eventNumbers a ++ eventNumbers b ∧
    blockNumbers (a ++ b) = blockNumbers a ++ blockNumbers b ∧
    logIndices (a ++ b) = logIndices a ++ logIndices b ∧
    valuesReported (a ++ b) = valuesReported a ++ valuesReported b := by
  simp [eventNumbers, blockNumbers, logIndices, valuesReported]

/-- The loop enters the bodies of the first `k` records, in order, and of no
other; `k` is the whole length when no record lacks topics. -/
theorem historyLoop_prefix (logs : List Log) : ∀ i : Nat, ∃ k, k ≤ logs.length ∧
    eventNumbers (historyLoop i logs).out = List.range' (i + 1) k ∧
    blockNumbers (historyLoop i logs).out = (logs.take k).map (fun l => l.BlockNumber) ∧
    logIndices (historyLoop i logs).out = (logs.take k).map (fun l => l.Index) ∧
    valuesReported (historyLoop i logs).out =
      ((logs.take k).filter (fun l => decide (32 ≤ l.Data.length))).map
        (fun l => Bytes2Hex (l.Data.take 32)) ∧
    ((∀ l ∈ logs, l.Topics ≠ []) → k = logs.length ∧ (historyLoop i logs).exit = none) := by
  induction logs with
  | nil =>
    intro i
    exact ⟨0, by simp [historyLoop, eventNumbers, blockNumbers, logIndices, valuesReported]⟩
  | cons l rest ih =>
    intro i
    obtain ⟨hv1, hv2, hv3, hv4⟩ := historyBody_views i l
    cases hexit : (historyBody i l).exit with
    | some e =>
      refine ⟨1, by simp, ?_⟩
      rw [historyLoop_cons_stop i l rest e hexit]
      refine ⟨by simp [hv1], by simp [hv2], by simp [hv3], ?_, ?_⟩
      · rw [hv4]
        by_cases h : 32 ≤ l.Data.length <;> simp [h]
      · intro hall
        have hl : l.Topics ≠ [] := hall l (by simp)
        rw [historyBody_exit] at hexit
        simp [hl] at hexit
    | none =>
      obtain ⟨k, hk, e1, e2, e3, e4, e5⟩ := ih (i + 1)
      refine ⟨k + 1, by simp; omega, ?_⟩
      rw [historyLoop_cons_continue i l rest hexit]
      obtain ⟨a1, a2, a3, a4⟩ := views_append (historyBody i l).out (historyLoop (i + 1) rest).out
      refine ⟨?_, ?_, ?_, ?_, ?_⟩
      · simp only [a1, hv1, e1]
        rw [List.range'_succ]
        rfl
      · simp [a2, hv2, e2]
      · simp [a3, hv3, e3]
      · simp only [a4, hv4, e4]
        by_cases h : 32 ≤ l.Data.length <;> simp [h]
      · intro hall
        have hrest : ∀ x ∈ rest, x.Topics ≠ [] := fun x hx => hall x (by simp [hx])
        obtain ⟨hk1, hk2⟩ := e5 hrest
        simp [hk1, hk2]

/-- When no record lacks topics the loop runs every body and ends normally. -/
theorem historyLoop_all (logs : List Log) : ∀ i : Nat, (∀ l ∈ logs, l.Topics ≠ []) →
    historyLoop i logs =
      ⟨(logs.enumFrom i).flatMap (fun p => (historyBody p.1 p.2).out), none⟩ := by
  induction logs with
  | nil =>
    intro i _
    simp [historyLoop]
  | cons l rest ih =>
    intro i hall
    have hl : l.Topics ≠ [] := hall l (by simp)
    have hexit : (historyBody i l).exit = none := by
      rw [historyBody_exit]
      simp [hl]
    have hrest : ∀ x ∈ rest, x.Topics ≠ [] := fun x hx => hall x (by simp [hx])
    rw [historyLoop_cons_continue i l rest hexit, ih (i + 1) hrest]
    simp [List.enumFrom]

/-- Claim C8, as stated, fails: the first record of this query has an empty data
payload, so its decoding fails; the failure is logged, and the loop goes on
to print the second record as event #2 and ends normally. The output is a
partial result that skips a record. -/
theorem history_continues_after_failure :
    decodeLog emptyDataLog = .error .emptyWhileExpected ∧
    historyLoop 0 [emptyDataLog, goodLog 8] =
      ⟨historyHeader 0 emptyDataLog ++ [.decodeFailed .emptyWhileExpected] ++
        historyHeader 1 (goodLog 8) ++
        [.valueNonIndexed (Bytes2Hex (List.replicate 32 3)), .eventSignature ItemSet.ID.Hex,
         .keyIndexed (Hash.fill 1).Hex, .allIndexed [(Hash.fill 1).Hex]], none⟩ := by
  have h1 : emptyDataLog.Data.length < 32 := by decide
  have h2 : 32 ≤ (goodLog 8).Data.length := by decide
  refine ⟨by decide, ?_⟩
  have e1 : (historyBody 0 emptyDataLog).exit = none := by
    rw [historyBody_error 0 emptyDataLog h1]
  have e2 : (historyBody 1 (goodLog 8)).exit = none := by
    rw [historyBody_exit]
    simp [goodLog]
  rw [historyLoop_cons_continue 0 _ _ e1, historyLoop_cons_continue 1 _ _ e2,
    historyBody_error 0 emptyDataLog h1, historyBody_ok 1 (goodLog 8) h2,
    historyTopics_cons _ _ ItemSet.ID [Hash.fill 1] rfl]
  simp [historyLoop, emptyDataLog, goodLog]

/-- Claim C8, amended: `query-history-events` skips and continues. A record whose
decoding fails gets its header and a logged error, and the loop goes on with
the next record. For every sequence of records that each carry at least one
topic the loop runs the body of every record and ends normally; the values
output are those of exactly the records whose data decodes, in order, so a
record that fails is left out of an otherwise complete output. -/
theorem history_skips_and_continues (i : Nat) (logs : List Log)
    (h : ∀ l ∈ logs, l.Topics ≠ []) :
    historyLoop i logs =
      ⟨(logs.enumFrom i).flatMap (fun p => (historyBody p.1 p.2).out), none⟩ ∧
    eventNumbers (historyLoop i logs).out = List.range' (i + 1) logs.length ∧
    valuesReported (historyLoop i logs).out =
      (logs.filter (fun l => decide (32 ≤ l.Data.length))).map
        (fun l => Bytes2Hex (l.Data.take 32)) ∧
    (∀ (bad : Log) (rest : List Log), bad.Data.length < 32 →
      ∃ err, decodeLog bad = .error err ∧
        historyLoop i (bad :: rest) =
          ⟨historyHeader i bad ++ [.decodeFailed err] ++ (historyLoop (i + 1) rest).out,
            (historyLoop (i + 1) rest).exit⟩) := by
  refine ⟨historyLoop_all logs i h, ?_, ?_, ?_⟩
  · obtain ⟨k, _, e1, _, _, _, e5⟩ := historyLoop_prefix logs i
    rw [e1, (e5 h).1]
  · obtain ⟨k, _, _, _, _, e4, e5⟩ := historyLoop_prefix logs i
    rw [e4, (e5 h).1]
    simp
  · intro bad rest hbad
    refine ⟨_, decodeLog_error bad hbad, ?_⟩
    have e1 : (historyBody i bad).exit = none := by
      rw [historyBody_error i bad hbad]
    rw [historyLoop_cons_continue i bad rest e1, historyBody_error i bad hbad]

/-- Witness for claim C8: a query of two records that both carry topics, the
first of which does not decode. -/
theorem history_skips_and_continues_witness :
    (∀ l ∈ [emptyDataLog, goodLog 8], l.Topics ≠ []) ∧
    eventNumbers (historyLoop 0 [emptyDataLog, goodLog 8]).out =
      List.range' (0 + 1) [emptyDataLog, goodLog 8].length :=
  ⟨by simp [emptyDataLog, goodLog],
    (history_skips_and_continues 0 [emptyDataLog, goodLog 8]
      (by simp [emptyDataLog, goodLog])).2.1⟩

/-- What `query-history-events` shows follows the returned sequence.
The loop shows the first `k` records and no other, each once: the event
numbers printed are `1, ..., k` (record `i`, counted from 0, is event
`#i+1`), the positions printed are those of these records in their order,
and the values printed are those of the records among them whose data
decodes, in their order; `k` is the number of records returned when each
carries a topic. A sequence ascending by block number and then by log index
is shown in ascending order. -/
theorem history_preserves_order (logs : List Log) :
    ∃ k, k ≤ logs.length ∧
      eventNumbers (historyLoop 0 logs).out = List.range' 1 k ∧
      positionsReported (historyLoop 0 logs).out = (logs.take k).map Log.position ∧
      valuesReported (historyLoop 0 logs).out =
        ((logs.take k).filter (fun l => decide (32 ≤ l.Data.length))).map
          (fun l => Bytes2Hex (l.Data.take 32)) ∧
      ((∀ l ∈ logs, l.Topics ≠ []) → k = logs.length) ∧
      (logs.Pairwise (fun a b => posLE a.position b.position) →
        (positionsReported (historyLoop 0 logs).out).Pairwise posLE) := by
  obtain ⟨k, hk, e1, e2, e3, e4, e5⟩ := historyLoop_prefix logs 0
  have hpos : positionsReported (historyLoop 0 logs).out = (logs.take k).map Log.position := by
    simp only [positionsReported, e2, e3, List.zip_map']
    rfl
  refine ⟨k, hk, by simpa using e1, hpos, e4, fun hall => (e5 hall).1, ?_⟩
  intro hsorted
  rw [hpos, List.pairwise_map]
  exact List.Pairwise.sublist (List.take_sublist k logs) hsorted

/-! ## The loop of `contract-events` -/

theorem eventsLoop_cons_continue (l : Log) (rest : List Selected)
    (h : (eventsBody l).exit = none) :
    eventsLoop (.log l :: rest) =
      ⟨(eventsBody l).out ++ (eventsLoop rest).out, (eventsLoop rest).exit⟩ := by
  rw [eventsLoop]
  generalize eventsBody l = r at h
  cases r with
  | mk o e =>
    simp only at h
    subst h
    rfl

theorem eventsLoop_cons_stop (l : Log) (rest : List Selected) (e : Exit)
    (h : (eventsBody l).exit = some e) :
    eventsLoop (.log l :: rest) = ⟨(eventsBody l).out, some e⟩ := by
  rw [eventsLoop]
  generalize eventsBody l = r at h
  cases r with
  | mk o e1 =>
    simp only at h
    subst h
    rfl

/-- The body of `contract-events` runs to its closing rule exactly for a record
whose data decodes and that carries a topic. -/
theorem eventsBody_exit (l : Log) :
    (eventsBody l).exit =
      if l.Data.length < 32 then
        some (.fatalDecode (if l.Data.length = 0 then .emptyWhileExpected
          else .lengthInsufficient l.Data.length 32))
      else if l.Topics = [] then some (.panicIndex 0 0) else none := by
  by_cases h : 32 ≤ l.Data.length
  · have h1 : ¬ l.Data.length < 32 := by omega
    rw [eventsBody_ok l h]
    cases hT : l.Topics with
    | nil => simp [eventsTopics_nil _ _ hT, h1]
    | cons t0 rest => simp [eventsTopics_cons _ _ _ _ hT, h1]
  · have h1 : l.Data.length < 32 := by omega
    simp [eventsBody_error l h1, h1]

/-- After records that decode and carry a topic, a record whose data does not
decode ends the process by `log.Fatal`: the records before it were handled to
their closing rule, of the record itself only the header is shown, and what
follows it has no effect. -/
theorem eventsLoop_fatal_at_undecodable (pre : List Log) (bad : Log) (post : List Selected)
    (hpre : ∀ l ∈ pre, 32 ≤ l.Data.length ∧ l.Topics ≠ []) (hbad : bad.Data.length < 32) :
    eventsLoop (pre.map Selected.log ++ .log bad :: post) =
      ⟨pre.flatMap (fun l => (eventsBody l).out) ++ eventsHeader bad,
        some (.fatalDecode (if bad.Data.length = 0 then .emptyWhileExpected
          else .lengthInsufficient bad.Data.length 32))⟩ := by
  induction pre with
  | nil =>
    have e : (eventsBody bad).exit = some (.fatalDecode
        (if bad.Data.length = 0 then .emptyWhileExpected
          else .lengthInsufficient bad.Data.length 32)) := by
      rw [eventsBody_error bad hbad]
    simp only [List.map_nil, List.nil_append, List.flatMap_nil]
    rw [eventsLoop_cons_stop bad post _ e, eventsBody_error bad hbad]
  | cons l rest ih =>
    have hl := hpre l (by simp)
    have hrest : ∀ x ∈ rest, 32 ≤ x.Data.length ∧ x.Topics ≠ [] :=
      fun x hx => hpre x (by simp [hx])
    have e : (eventsBody l).exit = none := by
      rw [eventsBody_exit]
      have h1 : ¬ l.Data.length < 32 := by omega
      simp [h1, hl.2]
    simp only [List.map_cons, List.cons_append, List.flatMap_cons]
    rw [eventsLoop_cons_continue l _ e, ih hrest]
    simp

/-- Claim C10, failing input: the subscription delivers `bareLog` (data that
decodes, no topics) and then `emptyDataLog` (data that does not decode). The
process ends in the panic at `topics[0]` while handling the first record,
before its closing rule: the first record whose data does not decode is not
what ends the process, and the record delivered before it is not fully
processed. -/
theorem eventsLoop_panics_before_undecodable :
    (∃ ev, decodeLog bareLog = .ok ev) ∧
    decodeLog emptyDataLog = .error .emptyWhileExpected ∧
    eventsLoop [.log bareLog, .log emptyDataLog] =
      ⟨eventsHeader bareLog ++
        [.keyHex (Bytes2Hex (List.replicate 32 0)),
         .valueHex (Bytes2Hex (List.replicate 32 7)),
         .valueString (List.replicate 32 7)],
        some (.panicIndex 0 0)⟩ := by
  refine ⟨⟨⟨Hash.zero, Hash.fill 7⟩, by decide⟩, by decide, by decide⟩

/-! ## The subscription loop as a transition system: claims -/

theorem eventsStep_dead (o : List Out) (e : Exit) (xs : List Selected) :
    xs.foldl eventsStep ⟨o, some e⟩ = ⟨o, some e⟩ := by
  induction xs with
  | nil => rfl
  | cons x xs ih => simpa [List.foldl, eventsStep] using ih

theorem eventsStep_live (xs : List Selected) : ∀ o : List Out,
    xs.foldl eventsStep ⟨o, none⟩ = ⟨o ++ (eventsLoop xs).out, (eventsLoop xs).exit⟩ := by
  induction xs with
  | nil =>
    intro o
    simp [eventsLoop]
  | cons x xs ih =>
    intro o
    cases x with
    | err e =>
      simp only [List.foldl, eventsStep, eventsLoop, List.append_nil]
      exact eventsStep_dead o _ xs
    | log vLog =>
      cases hexit : (eventsBody vLog).exit with
      | some e =>
        rw [eventsLoop_cons_stop vLog xs e hexit]
        simp only [List.foldl, eventsStep, hexit]
        exact eventsStep_dead _ _ xs
      | none =>
        rw [eventsLoop_cons_continue vLog xs hexit]
        simp only [List.foldl, eventsStep, hexit]
        rw [ih]
        simp

/-- The transition system and the recursive loop are the same function. -/
theorem eventsRun_eq_eventsLoop (xs : List Selected) : eventsRun xs = eventsLoop xs := by
  simp [eventsRun, eventsStep_live]

/-- After records that decode and carry a topic, the error signal ends the process
by `log.Fatal`: the records before it were handled to their closing rule and
what follows the signal has no effect. -/
theorem eventsLoop_error_terminal (pre : List Log) (e : String) (post : List Selected)
    (hpre : ∀ l ∈ pre, 32 ≤ l.Data.length ∧ l.Topics ≠ []) :
    eventsLoop (pre.map Selected.log ++ .err e :: post) =
      ⟨pre.flatMap (fun l => (eventsBody l).out), some (.fatalSubscription e)⟩ := by
  induction pre with
  | nil => simp [eventsLoop]
  | cons l rest ih =>
    have hl := hpre l (by simp)
    have hrest : ∀ x ∈ rest, 32 ≤ x.Data.length ∧ x.Topics ≠ [] :=
      fun x hx => hpre x (by simp [hx])
    have hexit : (eventsBody l).exit = none := by
      rw [eventsBody_exit]
      have h1 : ¬ l.Data.length < 32 := by omega
      simp [h1, hl.2]
    simp only [List.map_cons, List.cons_append, List.flatMap_cons]
    rw [eventsLoop_cons_continue l _ hexit, ih hrest]

/-- Three records of `ItemSet` and then an error signal: the three are handled, in
order, and the process ends on the signal, whatever is delivered later. -/
theorem three_events_then_failure (post : List Selected) :
    eventsRun ([.log (goodLog 1), .log (goodLog 2), .log (goodLog 3), .err transportError]
      ++ post) =
      ⟨(eventsBody (goodLog 1)).out ++ (eventsBody (goodLog 2)).out ++
        (eventsBody (goodLog 3)).out, some (.fatalSubscription transportError)⟩ := by
  rw [eventsRun_eq_eventsLoop]
  have h := eventsLoop_error_terminal [goodLog 1, goodLog 2, goodLog 3] transportError post
    (by simp [goodLog])
  simpa using h

/-- Claim C11, failing input: three records whose data decodes but that carry no
topics, then an error signal. The transition system ends in the panic at
`topics[0]` inside the first record: none of the three records is handled to
its closing rule and the error signal is never taken. -/
theorem eventsRun_panics_before_error_signal :
    (∃ ev, decodeLog bareLog = .ok ev) ∧
    eventsRun [.log bareLog, .log bareLog, .log bareLog, .err transportError] =
      ⟨eventsHeader bareLog ++
        [.keyHex (Bytes2Hex (List.replicate 32 0)),
         .valueHex (Bytes2Hex (List.replicate 32 7)),
         .valueString (List.replicate 32 7)],
        some (.panicIndex 0 0)⟩ := by
  refine ⟨⟨⟨Hash.zero, Hash.fill 7⟩, by decide⟩, by decide⟩

/-! ## The event identifier and the selector -/

/-- Claim C12: the signature `NewEvent` derives for the event `ItemSet` of
`StoreABI` is the string `ItemSet(bytes32,bytes32)` whose bytes step 9 of
`query-history-events` hashes, so the hash printed there is the identifier
`topics[0]` of the event; it is the 32-byte constant `e79e73da...81d4`. -/
theorem itemSet_signature_hash :
    ItemSet ∈ StoreABI.Events ∧
    ItemSet.Sig = "ItemSet(bytes32,bytes32)" ∧
    stringBytes ItemSet.Sig = eventSignature ∧
    eventSignatureHash = ItemSet.ID ∧
    eventSignatureHash.Hex =
      "0xe79e73da417710ae99aa2088575580a60415d359acfad9cdd3382d59c80281d4" := by
  have hsig : ItemSet.Sig = "ItemSet(bytes32,bytes32)" := by decide
  refine ⟨by simp [StoreABI], hsig, ?_, ?_, ?_⟩
  · rw [hsig, eventSignature]
  · rw [Event.ID, hsig, eventSignatureHash, eventSignature]
  · decide!

theorem methodID_bytes : methodID = [0xa9, 0x05, 0x9c, 0xbb] := by decide!

/-- Claim C18: the selector computed in `token-transfer`, the first 4 bytes of the
Keccak-256 hash of `transfer(address,uint256)`, is `a9 05 9c bb`, printed as
`0xa9059cbb`. -/
theorem methodID_eq :
    methodID = (Keccak256 (stringBytes "transfer(address,uint256)")).take 4 ∧
    methodID = [0xa9, 0x05, 0x9c, 0xbb] ∧ hexutilEncode methodID = "0xa9059cbb" := by
  refine ⟨rfl, methodID_bytes, ?_⟩
  rw [methodID_bytes]
  decide

/-! ## The two derivations of the address in `create-wallet` -/

/-- Claim C13, failing input: for the public key of the private key 1 the string
`address` is the EIP-55 rendering, with letters in upper case, and the string
`addressFromHash` is all lower case: the comparison of step 7 is false and
the program reports that the derivation failed. -/
theorem generator_key_strings_differ :
    walletAddress generatorKeyBytes = "0x7E5F4552091A69125d5DfCb7b8C2659029395Bdf" ∧
    addressFromHash generatorKeyBytes = "0x7e5f4552091a69125d5dfcb7b8c2659029395bdf" ∧
    addressesEqual generatorKeyBytes = false := by
  have h1 : walletAddress generatorKeyBytes =
      "0x7E5F4552091A69125d5DfCb7b8C2659029395Bdf" := by decide!
  have h2 : addressFromHash generatorKeyBytes =
      "0x7e5f4552091a69125d5dfcb7b8c2659029395bdf" := by decide!
  refine ⟨h1, h2, ?_⟩
  rw [addressesEqual, h1, h2]
  decide

/-! ## `waitForReceipt` -/

/-- An answer other than `NotFound` ends the call at once: with the receipt when
there is no error, with the error otherwise. -/
theorem executeWait_head (rpc : Response) (rest : List Response)
    (h : (TransactionReceipt rpc).err ≠ some .NotFound) :
    executeWaitForReceipt (rpc :: rest) =
      ⟨some (if (TransactionReceipt rpc).err = none
          then ⟨(TransactionReceipt rpc).receipt, none⟩
          else ⟨none, (TransactionReceipt rpc).err⟩), 1, 0, []⟩ := by
  by_cases h0 : (TransactionReceipt rpc).err = none
  · simp [executeWaitForReceipt, h0]
  · simp [executeWaitForReceipt, h0, h]

theorem deployWaitLoop_head (rpc : Response) (rest : List Response)
    (h : (TransactionReceipt rpc).err ≠ some .NotFound) :
    deployWaitLoop (rpc :: rest) =
      ⟨some (if (TransactionReceipt rpc).err = none
          then ⟨(TransactionReceipt rpc).receipt, none⟩
          else ⟨none, (TransactionReceipt rpc).err⟩), 1, 0, []⟩ := by
  by_cases h0 : (TransactionReceipt rpc).err = none
  · simp [deployWaitLoop, h0]
  · simp [deployWaitLoop, h0, h]

theorem executeWait_cons_notFound (a : Response) (rest : List Response)
    (ha : (TransactionReceipt a).err = some .NotFound) :
    executeWaitForReceipt (a :: rest) =
      ⟨(executeWaitForReceipt rest).returned, (executeWaitForReceipt rest).polls + 1,
        (executeWaitForReceipt rest).sleeps + 1, (executeWaitForReceipt rest).printed⟩ := by
  simp [executeWaitForReceipt, ha]

theorem deployWaitLoop_cons_notFound (a : Response) (rest : List Response)
    (ha : (TransactionReceipt a).err = some .NotFound) :
    deployWaitLoop (a :: rest) =
      ⟨(deployWaitLoop rest).returned, (deployWaitLoop rest).polls + 1,
        (deployWaitLoop rest).sleeps + 1, "." :: (deployWaitLoop rest).printed⟩ := by
  simp [deployWaitLoop, ha]

/-- Answers that are `NotFound` are skipped, each at the cost of one poll and one
sleep. -/
theorem executeWait_skip (pre rest : List Response)
    (hpre : ∀ a ∈ pre, (TransactionReceipt a).err = some .NotFound) :
    executeWaitForReceipt (pre ++ rest) =
      ⟨(executeWaitForReceipt rest).returned, (executeWaitForReceipt rest).polls + pre.length,
        (executeWaitForReceipt rest).sleeps + pre.length,
        (executeWaitForReceipt rest).printed⟩ := by
  induction pre with
  | nil => simp
  | cons a pre ih =>
    have ha : (TransactionReceipt a).err = some .NotFound := hpre a (by simp)
    have hrest : ∀ x ∈ pre, (TransactionReceipt x).err = some .NotFound :=
      fun x hx => hpre x (by simp [hx])
    rw [List.cons_append, executeWait_cons_notFound a _ ha, ih hrest]
    simp only [List.length_cons, Waited.mk.injEq, true_and, and_true]
    omega

theorem deployWaitLoop_skip (pre rest : List Response)
    (hpre : ∀ a ∈ pre, (TransactionReceipt a).err = some .NotFound) :
    deployWaitLoop (pre ++ rest) =
      ⟨(deployWaitLoop rest).returned, (deployWaitLoop rest).polls + pre.length,
        (deployWaitLoop rest).sleeps + pre.length,
        List.replicate pre.length "." ++ (deployWaitLoop rest).printed⟩ := by
  induction pre with
  | nil => simp
  | cons a pre ih =>
    have ha : (TransactionReceipt a).err = some .NotFound := hpre a (by simp)
    have hrest : ∀ x ∈ pre, (TransactionReceipt x).err = some .NotFound :=
      fun x hx => hpre x (by simp [hx])
    rw [List.cons_append, deployWaitLoop_cons_notFound a _ ha, ih hrest]
    simp only [List.length_cons, Waited.mk.injEq, true_and, List.replicate_succ,
      List.cons_append, and_true]
    omega

/-- The pair returned is never `(nil, nil)` and its error is never `NotFound`. -/
theorem executeWait_returned (answers : List Response) (res : Response)
    (h : (executeWaitForReceipt answers).returned = some res) :
    res.err ≠ some .NotFound ∧ ¬ (res.receipt = none ∧ res.err = none) := by
  induction answers with
  | nil => simp [executeWaitForReceipt] at h
  | cons a rest ih =>
    by_cases h0 : (TransactionReceipt a).err = none
    · simp only [executeWaitForReceipt, h0, if_true, Option.some.injEq] at h
      subst h
      refine ⟨by simp, ?_⟩
      simp only [and_true]
      intro hr
      simp only [TransactionReceipt] at h0 hr
      split at h0 <;> simp_all
    · by_cases h1 : (TransactionReceipt a).err = some .NotFound
      · simp only [executeWaitForReceipt, h1] at h
        simp at h
        exact ih h
      · simp only [executeWaitForReceipt, h0, h1, if_false, ne_eq, not_false_eq_true, if_true,
          Option.some.injEq] at h
        subst h
        exact ⟨h1, fun hh => h0 hh.2⟩

theorem deployWaitLoop_returned (answers : List Response) :
    (deployWaitLoop answers).returned = (executeWaitForReceipt answers).returned ∧
    (deployWaitLoop answers).polls = (executeWaitForReceipt answers).polls ∧
    (deployWaitLoop answers).sleeps = (executeWaitForReceipt answers).sleeps := by
  induction answers with
  | nil => simp [deployWaitLoop, executeWaitForReceipt]
  | cons a rest ih =>
    by_cases h0 : (TransactionReceipt a).err = none
    · simp [deployWaitLoop, executeWaitForReceipt, h0]
    · by_cases h1 : (TransactionReceipt a).err = some .NotFound
      · simp [deployWaitLoop, executeWaitForReceipt, h1, ih]
      · simp [deployWaitLoop, executeWaitForReceipt, h0, h1]

/-- Claim C14: in both copies of `waitForReceipt`, answers that are `NotFound` are
skipped and the first other answer ends the call: with `(receipt, nil)`, the
receipt being that of the answer, when it is a success, and with `(nil, err)`,
the error being that of the answer, when it is an error other than `NotFound`.
Whatever the answers, the error returned is never `NotFound` and the call
never returns a nil error without a receipt. -/
theorem waitForReceipt_returns_first_other (pre : List Response) (rpc : Response)
    (rest : List Response)
    (hpre : ∀ a ∈ pre, (TransactionReceipt a).err = some .NotFound) :
    (∀ r, TransactionReceipt rpc = ⟨some r, none⟩ →
      (executeWaitForReceipt (pre ++ rpc :: rest)).returned = some ⟨some r, none⟩ ∧
      (deployWaitForReceipt (pre ++ rpc :: rest)).returned = some ⟨some r, none⟩) ∧
    (∀ e, (TransactionReceipt rpc).err = some e → e ≠ .NotFound →
      (executeWaitForReceipt (pre ++ rpc :: rest)).returned = some ⟨none, some e⟩ ∧
      (deployWaitForReceipt (pre ++ rpc :: rest)).returned = some ⟨none, some e⟩) ∧
    (∀ answers res,
      ((executeWaitForReceipt answers).returned = some res ∨
        (deployWaitForReceipt answers).returned = some res) →
      res.err ≠ some .NotFound ∧ ¬ (res.receipt = none ∧ res.err = none)) := by
  refine ⟨?_, ?_, ?_⟩
  · intro r hr
    have hne : (TransactionReceipt rpc).err ≠ some .NotFound := by simp [hr]
    have he : (executeWaitForReceipt (pre ++ rpc :: rest)).returned = some ⟨some r, none⟩ := by
      rw [executeWait_skip pre _ hpre, executeWait_head rpc rest hne]
      simp [hr]
    refine ⟨he, ?_⟩
    simp only [deployWaitForReceipt]
    rw [(deployWaitLoop_returned _).1, he]
  · intro e he hne
    have hne1 : (TransactionReceipt rpc).err ≠ some .NotFound := by
      rw [he]
      intro hh
      exact hne (Option.some.inj hh)
    have hx : (executeWaitForReceipt (pre ++ rpc :: rest)).returned =
        some ⟨none, some e⟩ := by
      rw [executeWait_skip pre _ hpre, executeWait_head rpc rest hne1]
      simp [he]
    refine ⟨hx, ?_⟩
    simp only [deployWaitForReceipt]
    rw [(deployWaitLoop_returned _).1, hx]
  · intro answers res h
    rcases h with h | h
    · exact executeWait_returned answers res h
    · simp only [deployWaitForReceipt] at h
      rw [(deployWaitLoop_returned _).1] at h
      exact executeWait_returned answers res h

/-- Witness for claim C14: two pending answers, then a mined receipt. -/
theorem waitForReceipt_returns_first_other_witness :
    (∀ a ∈ [pendingAnswer, pendingAnswer], (TransactionReceipt a).err = some .NotFound) ∧
    (executeWaitForReceipt ([pendingAnswer, pendingAnswer] ++ minedAnswer :: [])).returned =
      some ⟨some ⟨1, 6920583, 21000⟩, none⟩ :=
  ⟨by decide,
    ((waitForReceipt_returns_first_other [pendingAnswer, pendingAnswer] minedAnswer []
      (by decide)).1 ⟨1, 6920583, 21000⟩ (by decide)).1⟩

/-- Claim C20: when the first answer that is not `NotFound` is the `n`-th, both
copies of `waitForReceipt` return after `n` polls and `n - 1` sleeps (here
`n - 1` is the number of answers before it); when all the answers are
`NotFound`, however many, the call has not returned after them: it has made
one poll and one sleep for each and is still in its loop. -/
theorem waitForReceipt_polls_and_sleeps (pre : List Response) (rpc : Response)
    (rest : List Response)
    (hpre : ∀ a ∈ pre, (TransactionReceipt a).err = some .NotFound)
    (hrpc : (TransactionReceipt rpc).err ≠ some .NotFound) :
    ((executeWaitForReceipt (pre ++ rpc :: rest)).returned.isSome = true ∧
      (executeWaitForReceipt (pre ++ rpc :: rest)).polls = pre.length + 1 ∧
      (executeWaitForReceipt (pre ++ rpc :: rest)).sleeps = pre.length) ∧
    ((deployWaitForReceipt (pre ++ rpc :: rest)).returned.isSome = true ∧
      (deployWaitForReceipt (pre ++ rpc :: rest)).polls = pre.length + 1 ∧
      (deployWaitForReceipt (pre ++ rpc :: rest)).sleeps = pre.length) ∧
    ((executeWaitForReceipt pre).returned = none ∧
      (executeWaitForReceipt pre).polls = pre.length ∧
      (executeWaitForReceipt pre).sleeps = pre.length) ∧
    ((deployWaitForReceipt pre).returned = none ∧
      (deployWaitForReceipt pre).polls = pre.length ∧
      (deployWaitForReceipt pre).sleeps = pre.length) := by
  have h1 : (executeWaitForReceipt (pre ++ rpc :: rest)).returned.isSome = true ∧
      (executeWaitForReceipt (pre ++ rpc :: rest)).polls = pre.length + 1 ∧
      (executeWaitForReceipt (pre ++ rpc :: rest)).sleeps = pre.length := by
    rw [executeWait_skip pre _ hpre, executeWait_head rpc rest hrpc]
    simp
    omega
  have h2 : (executeWaitForReceipt pre).returned = none ∧
      (executeWaitForReceipt pre).polls = pre.length ∧
      (executeWaitForReceipt pre).sleeps = pre.length := by
    have h := executeWait_skip pre [] hpre
    rw [List.append_nil] at h
    rw [h]
    simp [executeWaitForReceipt]
  obtain ⟨d1, d2, d3⟩ := deployWaitLoop_returned (pre ++ rpc :: rest)
  obtain ⟨f1, f2, f3⟩ := deployWaitLoop_returned pre
  refine ⟨h1, ?_, h2, ?_⟩
  · simp only [deployWaitForReceipt, d1, d2, d3]
    exact h1
  · simp only [deployWaitForReceipt, f1, f2, f3]
    exact h2

/-- Witness for claim C20: the mined receipt is the third answer. -/
theorem waitForReceipt_polls_and_sleeps_witness :
    (∀ a ∈ [pendingAnswer, pendingAnswer], (TransactionReceipt a).err = some .NotFound) ∧
    (TransactionReceipt minedAnswer).err ≠ some .NotFound ∧
    (executeWaitForReceipt ([pendingAnswer, pendingAnswer] ++ minedAnswer :: [])).polls =
      [pendingAnswer, pendingAnswer].length + 1 :=
  ⟨by decide, by decide,
    (waitForReceipt_polls_and_sleeps [pendingAnswer, pendingAnswer] minedAnswer []
      (by decide) (by decide)).1.2.1⟩

/-! ## The two address strings agree up to the case of the letters -/

theorem hexDigit_mem : ∀ n : Fin 16, hexDigit n.val ∈ hextable := by decide

theorem hexChars_mem (bs : List Byte) : ∀ c ∈ hexChars bs, c ∈ hextable := by
  induction bs with
  | nil => simp [hexChars]
  | cons b bs ih =>
    intro c hc
    simp only [hexChars, hexByte, List.cons_append, List.nil_append, List.mem_cons] at hc
    rcases hc with hc | hc | hc
    · rw [hc]
      exact hexDigit_mem ⟨b.val / 16, by omega⟩
    · rw [hc]
      exact hexDigit_mem ⟨b.val % 16, by omega⟩
    · exact ih c hc

theorem upper_then_lower :
    ∀ c ∈ '0' :: 'x' :: hextable,
      c.toLower = c ∧ (c.toNat > '9'.toNat → (Char.ofNat (c.toNat - 32)).toLower = c) := by
  decide

theorem checksumChar_toLower (hash : List Byte) (i : Nat) (c : Char)
    (hc : c ∈ '0' :: 'x' :: hextable) : (checksumChar hash i c).toLower = c := by
  obtain ⟨h1, h2⟩ := upper_then_lower c hc
  unfold checksumChar
  simp only
  generalize (if i % 2 = 0 then (hash.getD ((i - 2) / 2) 0).val >>> 4
    else (hash.getD ((i - 2) / 2) 0).val &&& 0xf) = nibble
  by_cases h : c.toNat > '9'.toNat ∧ nibble > 7
  · rw [if_pos h]
    exact h2 h.1
  · rw [if_neg h]
    exact h1

theorem enum_map_toLower (g : Nat → Char → Char) (l : List Char)
    (h : ∀ i, ∀ c ∈ l, (g i c).toLower = c) : ∀ k : Nat,
    ((l.enumFrom k).map (fun p => g p.1 p.2)).map Char.toLower = l := by
  induction l with
  | nil => simp
  | cons c cs ih =>
    intro k
    have hc := h k c (by simp)
    have hcs : ∀ i, ∀ x ∈ cs, (g i x).toLower = x := fun i x hx => h i x (by simp [hx])
    simp only [List.enumFrom_cons, List.map_cons, hc, ih hcs (k + 1)]

theorem pubkeyToAddress_bytes (pk : List Byte) :
    (PubkeyToAddress pk).bytes = (fullHash pk).drop 12 := by
  have hlen : (Keccak256 (pk.drop 1)).length = 32 := (Keccak256Hash _).size
  simp only [PubkeyToAddress, BytesToAddress, fullHash, List.length_drop, hlen]
  simp

/-- The string `address` with its letters in lower case is the string
`addressFromHash`: the two derivations give the same 20 bytes, and the strings
differ in the case of the letters that EIP-55 capitalises, and in nothing else. -/
theorem walletAddress_toLower (pk : List Byte) :
    (walletAddress pk).data.map Char.toLower = (addressFromHash pk).data := by
  have hbuf : (addressFromHash pk).data = (PubkeyToAddress pk).hex := by
    simp [addressFromHash, hexutilEncode, Bytes2Hex, Address.hex, pubkeyToAddress_bytes]
  rw [hbuf]
  simp only [walletAddress, Address.Hex, Address.checksumHex, List.enum]
  apply enum_map_toLower
    (fun i c => if i < 2 then c
      else checksumChar (Keccak256 (((PubkeyToAddress pk).hex.drop 2).map
        fun c => Fin.ofNat c.toNat)) i c)
  intro i c hc
  have hmem : c ∈ '0' :: 'x' :: hextable := by
    simp only [Address.hex, List.mem_cons] at hc
    rcases hc with hc | hc | hc
    · simp [hc]
    · simp [hc]
    · exact List.mem_cons_of_mem _ (List.mem_cons_of_mem _ (hexChars_mem _ c hc))
  split
  · exact (upper_then_lower c hmem).1
  · exact checksumChar_toLower _ i c hmem

/-! ## `IsValidAddress` -/

theorem isHexCharacter_iff : ∀ c : Byte, isHexCharacter c = true ↔ IsHexDigit c := by
  unfold IsHexDigit
  decide!

theorem isHexLoop_iff (s : List Byte) :
    isHexLoop s = true ↔ ∀ c ∈ s, isHexCharacter c = true := by
  induction s with
  | nil => simp [isHexLoop]
  | cons c cs ih =>
    by_cases h : isHexCharacter c = true
    · simp [isHexLoop, h, ih]
    · simp [isHexLoop, h]

theorem strip_eq_withoutPrefix (s : List Byte) :
    (if has0xPrefix s then s.drop 2 else s) = withoutPrefix s := by
  match s with
  | [] => simp [has0xPrefix, withoutPrefix]
  | [c] => simp [has0xPrefix, withoutPrefix]
  | c0 :: c1 :: rest =>
    by_cases h0 : c0 = 48
    · by_cases h1 : c1 = 120
      · subst h0 h1
        simp [has0xPrefix, withoutPrefix]
      · by_cases h2 : c1 = 88
        · subst h0 h2
          simp [has0xPrefix, withoutPrefix]
        · subst h0
          simp [has0xPrefix, withoutPrefix, h1, h2]
    · simp [has0xPrefix, withoutPrefix, h0]

/-- Claim C15: `IsValidAddress(s)` is true exactly when `s`, without an optional
prefix `0x` or `0X`, consists of exactly 40 hexadecimal digits of either
case; the empty string, a string of another length and a string with a
character that is not a hex digit are rejected. -/
theorem isValidAddress_iff (s : List Byte) :
    (IsValidAddress s = true ↔ ValidAddressText s) ∧
    IsValidAddress [] = false ∧
    ((withoutPrefix s).length ≠ 40 → IsValidAddress s = false) ∧
    ((∃ c ∈ withoutPrefix s, ¬ IsHexDigit c) → IsValidAddress s = false) := by
  have hiff : IsValidAddress s = true ↔ ValidAddressText s := by
    simp only [IsValidAddress, IsHexAddress, strip_eq_withoutPrefix, ValidAddressText,
      Bool.and_eq_true, beq_iff_eq, isHex]
    constructor
    · rintro ⟨hlen, hhex⟩
      refine ⟨hlen, ?_⟩
      rw [hlen] at hhex
      simp only [Nat.reduceMod, ne_eq, not_true_eq_false, if_false] at hhex
      intro c hc
      exact (isHexCharacter_iff c).mp ((isHexLoop_iff _).mp hhex c hc)
    · rintro ⟨hlen, hhex⟩
      refine ⟨hlen, ?_⟩
      rw [hlen]
      simp only [Nat.reduceMod, ne_eq, not_true_eq_false, if_false]
      exact (isHexLoop_iff _).mpr (fun c hc => (isHexCharacter_iff c).mpr (hhex c hc))
  refine ⟨hiff, by decide, ?_, ?_⟩
  · intro hlen
    rw [Bool.eq_false_iff]
    intro h
    exact hlen (hiff.mp h).1
  · rintro ⟨c, hc, hnot⟩
    rw [Bool.eq_false_iff]
    intro h
    exact hnot ((hiff.mp h).2 c hc)

/-! ## `EtherToWei` -/

theorem bitLen_le_iff (m k : Nat) : bitLen m ≤ k ↔ m < 2 ^ k := by
  unfold bitLen
  split
  · rename_i h
    subst h
    simp
  · rename_i h
    rw [Nat.add_one_le_iff, Nat.log2_lt h]

/-- Rounding loses nothing when the bits shifted out are zero. -/
theorem roundMant_exact (prec m : Nat) (h : 2 ^ (bitLen m - prec) ∣ m) :
    (roundMant prec m).1 * 2 ^ (roundMant prec m).2 = m := by
  unfold roundMant
  split
  · simp
  · have hr : m % 2 ^ (bitLen m - prec) = 0 := Nat.mod_eq_zero_of_dvd h
    have hpos : 0 < 2 ^ (bitLen m - prec - 1) := Nat.two_pow_pos _
    have hc : ¬ (m % 2 ^ (bitLen m - prec) > 2 ^ (bitLen m - prec - 1) ∨
        (m % 2 ^ (bitLen m - prec) = 2 ^ (bitLen m - prec - 1) ∧
          m / 2 ^ (bitLen m - prec) % 2 = 1)) := by
      rw [hr]
      omega
    simp only [hc, if_false]
    exact Nat.div_mul_cancel h

theorem bitLen_eq (m k : Nat) (h1 : 2 ^ k ≤ m) (h2 : m < 2 ^ (k + 1)) : bitLen m = k + 1 := by
  have a : bitLen m ≤ k + 1 := (bitLen_le_iff m (k + 1)).mpr h2
  have b : ¬ bitLen m ≤ k := fun h => by
    have := (bitLen_le_iff m k).mp h
    omega
  omega

theorem newFloat_1e18 :
    NewFloat 1000000000000000000 = ⟨53, false, 7812500000000000, 7⟩ := by
  have hb : bitLen 1000000000000000000 = 60 := bitLen_eq _ 59 (by norm_num) (by norm_num)
  simp only [NewFloat, roundMant, hb]
  norm_num

theorem newFloat_small (n : Nat) (h : n < 2 ^ 53) : NewFloat n = ⟨53, false, n, 0⟩ := by
  have hb : bitLen n ≤ 53 := (bitLen_le_iff n 53).mpr h
  simp [NewFloat, roundMant, hb]

/-- Claim C16, failing input: 2363 is an integer a `float64` holds exactly, so
`big.NewFloat(2363)` is the whole amount of 2363 ether; `EtherToWei` returns
`2363 * 10^18 + 262144` for it, the product rounded to 53 bits, and not the
`2363 * 10^18` wei that 2363 ether are. -/
theorem etherToWei_2363_inexact :
    NewFloat 2363 = ⟨53, false, 2363, 0⟩ ∧
    EtherToWei (NewFloat 2363) = 2363 * 10 ^ 18 + 262144 := by
  have hN : NewFloat 2363 = ⟨53, false, 2363, 0⟩ := newFloat_small 2363 (by norm_num)
  have hb : bitLen (2363 * 7812500000000000) = 65 :=
    bitLen_eq _ 64 (by norm_num) (by norm_num)
  have hr : roundMant 53 (2363 * 7812500000000000) = (4507064819335938, 12) := by
    simp only [roundMant, hb]
    norm_num
  refine ⟨hN, ?_⟩
  rw [hN]
  unfold EtherToWei
  rw [newFloat_1e18]
  simp only [BigFloat.Mul, if_true, Nat.max_self, hr]
  simp [BigFloat.Int]

/-- For every non-negative integer `n` with `n * 5^18 < 2^53` (every `n` up to
2361), given as `big.NewFloat(n)`, `EtherToWei` returns the integer
`n * 10^18`: the product needs no more than 53 bits. -/
theorem etherToWei_exact (n : Nat) (h : n * 5 ^ 18 < 2 ^ 53) :
    NewFloat n = ⟨53, false, n, 0⟩ ∧ EtherToWei (NewFloat n) = (n : ℤ) * 10 ^ 18 := by
  have hn : n < 2 ^ 53 := by
    have : n * 1 ≤ n * 5 ^ 18 := Nat.mul_le_mul_left n (by norm_num)
    omega
  have hN := newFloat_small n hn
  refine ⟨hN, ?_⟩
  have hM : n * 7812500000000000 < 2 ^ 64 := by
    have : n * 7812500000000000 = n * 5 ^ 18 * 2 ^ 11 := by
      rw [Nat.mul_assoc]
      norm_num
    rw [this]
    have : n * 5 ^ 18 * 2 ^ 11 < 2 ^ 53 * 2 ^ 11 := Nat.mul_lt_mul_of_pos_right h (by norm_num)
    calc n * 5 ^ 18 * 2 ^ 11 < 2 ^ 53 * 2 ^ 11 := this
      _ = 2 ^ 64 := by norm_num
  have hlen : bitLen (n * 7812500000000000) ≤ 64 := (bitLen_le_iff _ 64).mpr hM
  have hdvd : 2 ^ (bitLen (n * 7812500000000000) - 53) ∣ n * 7812500000000000 := by
    have h1 : 2 ^ (bitLen (n * 7812500000000000) - 53) ∣ 2 ^ 11 :=
      Nat.pow_dvd_pow 2 (by omega)
    have h2 : (2 : Nat) ^ 11 ∣ 7812500000000000 := by norm_num
    exact Dvd.dvd.mul_left (h1.trans h2) n
  have hexact := roundMant_exact 53 _ hdvd
  simp only [EtherToWei, BigFloat.Mul, hN, newFloat_1e18, if_true, Nat.max_self,
    BigFloat.Int, bne_self_eq_false, Bool.false_eq_true, if_false]
  have hexp : (0 : ℤ) ≤ 0 + 7 + ((roundMant 53 (n * 7812500000000000)).2 : ℤ) := by omega
  have htonat : ((0 : ℤ) + 7 + ((roundMant 53 (n * 7812500000000000)).2 : ℤ)).toNat =
      (roundMant 53 (n * 7812500000000000)).2 + 7 := by omega
  simp only [hexp, if_true, htonat]
  rw [Nat.pow_add, ← Nat.mul_assoc, hexact]
  push_cast
  ring

/-- An instance of `etherToWei_exact`: 1000 ether. -/
theorem etherToWei_exact_witness :
    1000 * 5 ^ 18 < 2 ^ 53 ∧ EtherToWei (NewFloat 1000) = ((1000 : Nat) : ℤ) * 10 ^ 18 :=
  ⟨by norm_num, (etherToWei_exact 1000 (by norm_num)).2⟩

/-! ## The call data of `token-transfer` -/


theorem digits_getD (i : Nat) : ∀ n : Nat, (Nat.digits 256 n).getD i 0 = n / 256 ^ i % 256 := by
  induction i with
  | zero =>
    intro n
    rcases Nat.eq_zero_or_pos n with h | h
    · subst h
      simp
    · rw [Nat.digits_def' (by norm_num) h]
      simp
  | succ i ih =>
    intro n
    rcases Nat.eq_zero_or_pos n with h | h
    · subst h
      simp
    · rw [Nat.digits_def' (by norm_num) h]
      simp only [List.getD_cons_succ]
      rw [ih, Nat.div_div_eq_div_mul, Nat.pow_succ, Nat.mul_comm]

theorem digits_length_le (a : Nat) (h : a < 2 ^ 256) : (Nat.digits 256 a).length ≤ 32 := by
  rcases Nat.eq_zero_or_pos a with h0 | h0
  · subst h0
    simp
  · have h1 := Nat.base_pow_length_digits_le 256 a (by norm_num) (by omega)
    have h2 : 256 ^ (Nat.digits 256 a).length < 256 ^ 33 := by
      calc 256 ^ (Nat.digits 256 a).length ≤ 256 * a := h1
        _ < 256 * 2 ^ 256 := by omega
        _ = 256 ^ 33 := by norm_num
    have h3 := (Nat.pow_lt_pow_iff_right (by norm_num : 1 < 256)).mp h2
    omega

/-- Left-padding the big-endian bytes of an integer below `2^256` to 32 bytes is
its encoding as a `uint256`. -/
theorem leftPad_bigIntBytes (a : Nat) (h : a < 2 ^ 256) :
    LeftPadBytes (bigIntBytes a) 32 = abiUint256 a := by
  have hlen := digits_length_le a h
  have hpad : LeftPadBytes (bigIntBytes a) 32 =
      List.replicate (32 - (Nat.digits 256 a).length) 0 ++ bigIntBytes a := by
    unfold LeftPadBytes
    split
    · rename_i h32
      simp only [bigIntBytes, List.length_map, List.length_reverse] at h32
      have : (Nat.digits 256 a).length = 32 := by omega
      simp [this]
    · simp [bigIntBytes]
  rw [hpad]
  apply List.ext_getElem
  · simp [bigIntBytes, abiUint256]
    omega
  · intro i h1 h2
    simp only [abiUint256, List.length_map, List.length_range] at h2
    simp only [abiUint256, List.getElem_map, List.getElem_range]
    rw [← digits_getD]
    rw [List.getElem_append]
    split
    · rename_i hi
      simp only [List.length_replicate] at hi
      simp only [List.getElem_replicate]
      rw [List.getD_eq_default]
      · rfl
      · omega
    · rename_i hi
      simp only [List.length_replicate, not_lt] at hi
      simp only [bigIntBytes, List.getElem_map, List.getElem_reverse, List.length_replicate]
      have hb : 31 - i < (Nat.digits 256 a).length := by omega
      rw [List.getD_eq_getElem _ _ hb]
      congr 2
      omega

theorem leftPad_address (a : Address) : LeftPadBytes a.bytes 32 = abiAddress a := by
  simp [LeftPadBytes, abiAddress, a.size]

/-- Claim C17: for every 20-byte recipient and every amount below `2^256` the call
data assembled in `token-transfer` has 68 bytes: the 4 bytes of the selector,
the address after 12 zero bytes, and the amount as 32 big-endian bytes; it is
the standard encoding of the call `transfer(address,uint256)`. -/
theorem callData_is_abi_encoding (recipient : Address) (amount : Nat) (h : amount < 2 ^ 256) :
    callData recipient amount = abiEncodeTransfer recipient amount ∧
    (callData recipient amount).length = 68 ∧
    callData recipient amount =
      methodID ++ (List.replicate 12 0 ++ recipient.bytes) ++ abiUint256 amount := by
  have h1 : callData recipient amount =
      methodID ++ (List.replicate 12 0 ++ recipient.bytes) ++ abiUint256 amount := by
    simp only [callData, List.nil_append, leftPad_bigIntBytes amount h, leftPad_address,
      abiAddress]
  refine ⟨?_, ?_, h1⟩
  · rw [h1, methodID_bytes]
    rfl
  · rw [h1, methodID_bytes]
    simp [abiUint256, recipient.size]

/-- Witness for claim C17: the recipient and the amount of the program. -/
theorem callData_is_abi_encoding_witness :
    1000000000000000000000 < 2 ^ 256 ∧
    (callData toAddress 1000000000000000000000).length = 68 :=
  ⟨by norm_num, (callData_is_abi_encoding toAddress 1000000000000000000000 (by norm_num)).2.1⟩

/-! ## The two copies of `waitForReceipt` -/

theorem executeWait_printed (answers : List Response) :
    (executeWaitForReceipt answers).printed = [] := by
  induction answers with
  | nil => simp [executeWaitForReceipt]
  | cons a rest ih =>
    by_cases h0 : (TransactionReceipt a).err = none
    · simp [executeWaitForReceipt, h0]
    · by_cases h1 : (TransactionReceipt a).err = some .NotFound
      · simp [executeWaitForReceipt, h1, ih]
      · simp [executeWaitForReceipt, h0, h1]

theorem deployWaitLoop_printed (answers : List Response) :
    (deployWaitLoop answers).printed = List.replicate (deployWaitLoop answers).sleeps "." := by
  induction answers with
  | nil => simp [deployWaitLoop]
  | cons a rest ih =>
    by_cases h0 : (TransactionReceipt a).err = none
    · simp [deployWaitLoop, h0]
    · by_cases h1 : (TransactionReceipt a).err = some .NotFound
      · simp [deployWaitLoop, h1, ih, List.replicate_succ]
      · simp [deployWaitLoop, h0, h1]

/-- Claim C21: on every sequence of answers the two copies of `waitForReceipt`
make the same number of polls and sleeps and return the same pair (or are
both still in the loop); they differ in what they print alone: the copy of
`execute-contract` prints nothing, the copy of `deploy-contract` prints its
first line and one dot for each sleep. -/
theorem waitForReceipt_copies_agree (answers : List Response) :
    (deployWaitForReceipt answers).returned = (executeWaitForReceipt answers).returned ∧
    (deployWaitForReceipt answers).polls = (executeWaitForReceipt answers).polls ∧
    (deployWaitForReceipt answers).sleeps = (executeWaitForReceipt answers).sleeps ∧
    (executeWaitForReceipt answers).printed = [] ∧
    (deployWaitForReceipt answers).printed =
      "正在等待交易确认..." :: List.replicate (executeWaitForReceipt answers).sleeps "." := by
  obtain ⟨h1, h2, h3⟩ := deployWaitLoop_returned answers
  refine ⟨?_, ?_, ?_, executeWait_printed answers, ?_⟩
  · simp only [deployWaitForReceipt, h1]
  · simp only [deployWaitForReceipt, h2]
  · simp only [deployWaitForReceipt, h3]
  · simp only [deployWaitForReceipt, deployWaitLoop_printed, h3]

/-! ## The amounts of `token-transfer` and `eth-transfer` -/

theorem bytesToNat_zeros (k : Nat) (l : List Byte) :
    bytesToNat (List.replicate k 0 ++ l) = bytesToNat l := by
  induction k with
  | zero => simp
  | succ k ih =>
    simp only [bytesToNat, List.replicate_succ, List.cons_append, List.foldl_cons] at ih ⊢
    simpa using ih

theorem bytesToNat_reverse (d : List Nat) (h : ∀ x ∈ d, x < 256) :
    bytesToNat (d.reverse.map Fin.ofNat) = Nat.ofDigits 256 d := by
  induction d with
  | nil => simp [bytesToNat]
  | cons x t ih =>
    have hx : x < 256 := h x (by simp)
    have ht : ∀ y ∈ t, y < 256 := fun y hy => h y (by simp [hy])
    have ih' := ih ht
    simp only [bytesToNat] at ih'
    simp only [bytesToNat, List.reverse_cons, List.map_append, List.map_cons, List.map_nil,
      List.foldl_append, List.foldl_cons, List.foldl_nil, ih', Nat.ofDigits_cons]
    have hv : (Fin.ofNat x : Byte).val = x := by
      simp only [Fin.ofNat, Nat.succ_eq_add_one, Nat.reduceAdd]
      omega
    rw [hv]
    omega

/-- The bytes of an integer, padded to 32 bytes, read back as that integer. -/
theorem bytesToNat_leftPad (a : Nat) :
    bytesToNat (LeftPadBytes (bigIntBytes a) 32) = a := by
  have hb : bytesToNat (bigIntBytes a) = a := by
    rw [bigIntBytes, bytesToNat_reverse _ (fun x hx => Nat.digits_lt_base (by norm_num) hx)]
    exact Nat.ofDigits_digits 256 a
  unfold LeftPadBytes
  split
  · exact hb
  · rw [bytesToNat_zeros, hb]

theorem bigIntBytes_amount :
    bigIntBytes 1000000000000000000000 =
      [0x36, 0x35, 0xc9, 0xad, 0xc5, 0xde, 0xa0, 0x00, 0x00] := by
  unfold bigIntBytes
  norm_num
  decide

/-- Claim C22: the literal `"1000000000000000000000"` parsed in base 10 is
`1000 * 10^18 = 10^21`; its big-endian bytes are 9, at most 32, so the
padded encoding has 32 bytes, the last 9 being those of the integer, and
reads back as exactly that integer. -/
theorem tokenAmount_encoding :
    tokenAmount = some 1000000000000000000000 ∧
    (1000000000000000000000 : ℤ) = 1000 * 10 ^ 18 ∧
    (1000000000000000000000 : ℤ) = 10 ^ 21 ∧
    (bigIntBytes 1000000000000000000000).length = 9 ∧
    (bigIntBytes 1000000000000000000000).length ≤ 32 ∧
    LeftPadBytes (bigIntBytes 1000000000000000000000) 32 =
      List.replicate 23 0 ++ [0x36, 0x35, 0xc9, 0xad, 0xc5, 0xde, 0xa0, 0x00, 0x00] ∧
    bytesToNat (LeftPadBytes (bigIntBytes 1000000000000000000000) 32) =
      1000000000000000000000 := by
  refine ⟨by decide, by norm_num, by norm_num, ?_, ?_, ?_, bytesToNat_leftPad _⟩
  · rw [bigIntBytes_amount]
    rfl
  · rw [bigIntBytes_amount]
    decide
  · rw [bigIntBytes_amount]
    decide

/-- Claim C23: the value `big.NewInt(1000000000000000000)` of `eth-transfer` is
`10^18` wei; the literal lies in the range of `int64`, so the conversion to
`int64` leaves it as it is. -/
theorem transferValue_one_ether :
    transferValue = 10 ^ 18 ∧
    -(2 : ℤ) ^ 63 ≤ 1000000000000000000 ∧ (1000000000000000000 : ℤ) < 2 ^ 63 ∧
    toInt64 1000000000000000000 = 1000000000000000000 ∧
    (∀ x : ℤ, -(2 : ℤ) ^ 63 ≤ x → x < 2 ^ 63 → NewInt x = x) := by
  refine ⟨by decide, by norm_num, by norm_num, by decide, ?_⟩
  intro x h1 h2
  simp only [NewInt, toInt64]
  omega

/-! ## The order of the output of `query-history-events` and the panic -/

/-- When every record either carries a topic or has data that does not decode,
the loop handles every record and ends normally: the event numbers are
`i+1, i+2, ...`, one for each record, and the block numbers, log indices and
values shown are those of the records, in their order. -/
theorem historyLoop_complete (logs : List Log) : ∀ i : Nat,
    (∀ l ∈ logs, l.Topics ≠ [] ∨ l.Data.length < 32) →
    (historyLoop i logs).exit = none ∧
    eventNumbers (historyLoop i logs).out = List.range' (i + 1) logs.length ∧
    blockNumbers (historyLoop i logs).out = logs.map (fun l => l.BlockNumber) ∧
    logIndices (historyLoop i logs).out = logs.map (fun l => l.Index) ∧
    valuesReported (historyLoop i logs).out =
      (logs.filter (fun l => decide (32 ≤ l.Data.length))).map
        (fun l => Bytes2Hex (l.Data.take 32)) := by
  induction logs with
  | nil =>
    intro i _
    simp [historyLoop, eventNumbers, blockNumbers, logIndices, valuesReported]
  | cons l rest ih =>
    intro i hall
    have hl := hall l (by simp)
    have hrest : ∀ x ∈ rest, x.Topics ≠ [] ∨ x.Data.length < 32 :=
      fun x hx => hall x (by simp [hx])
    have hexit : (historyBody i l).exit = none := by
      rw [historyBody_exit]
      have hc : ¬ (32 ≤ l.Data.length ∧ l.Topics = []) := by
        rintro ⟨h1, h2⟩
        rcases hl with h | h
        · exact h h2
        · omega
      simp [hc]
    obtain ⟨hv1, hv2, hv3, hv4⟩ := historyBody_views i l
    obtain ⟨e0, e1, e2, e3, e4⟩ := ih (i + 1) hrest
    obtain ⟨a1, a2, a3, a4⟩ := views_append (historyBody i l).out (historyLoop (i + 1) rest).out
    rw [historyLoop_cons_continue i l rest hexit]
    refine ⟨e0, ?_, ?_, ?_, ?_⟩
    · simp only [a1, hv1, e1, List.length_cons]
      rw [List.range'_succ]
      rfl
    · simp [a2, hv2, e2]
    · simp [a3, hv3, e3]
    · simp only [a4, hv4, e4]
      by_cases h : 32 ≤ l.Data.length <;> simp [h]

/-- Claim C9, failing input: `FilterLogs` returns three records, the second with
data that decodes and no topics. The first is reported as event #1 and the
second as event #2 up to its value; reading `topics[0]` then ends the process
in a panic, and the third record is never reported, neither as event #3 nor
at all. -/
theorem history_stops_at_topicless_record :
    historyLoop 0 [goodLog 1, bareLog, goodLog 2] =
      ⟨historyHeader 0 (goodLog 1) ++
        [.valueNonIndexed (Bytes2Hex (List.replicate 32 3)), .eventSignature ItemSet.ID.Hex,
         .keyIndexed (Hash.fill 1).Hex, .allIndexed [(Hash.fill 1).Hex]] ++
        historyHeader 1 bareLog ++ [.valueNonIndexed (Bytes2Hex (List.replicate 32 7))],
        some (.panicIndex 0 0)⟩ ∧
    eventNumbers (historyLoop 0 [goodLog 1, bareLog, goodLog 2]).out = [1, 2] ∧
    valuesReported (historyLoop 0 [goodLog 1, bareLog, goodLog 2]).out =
      [Bytes2Hex (List.replicate 32 3), Bytes2Hex (List.replicate 32 7)] := by
  have h1 : 32 ≤ (goodLog 1).Data.length := by decide
  have h2 : 32 ≤ bareLog.Data.length := by decide
  have b1 : historyBody 0 (goodLog 1) =
      ⟨historyHeader 0 (goodLog 1) ++
        [.valueNonIndexed (Bytes2Hex (List.replicate 32 3)), .eventSignature ItemSet.ID.Hex,
         .keyIndexed (Hash.fill 1).Hex, .allIndexed [(Hash.fill 1).Hex]], none⟩ := by
    rw [historyBody_ok 0 (goodLog 1) h1, historyTopics_cons _ _ ItemSet.ID [Hash.fill 1] rfl]
    simp [goodLog]
  have b2 : historyBody 1 bareLog =
      ⟨historyHeader 1 bareLog ++ [.valueNonIndexed (Bytes2Hex (List.replicate 32 7))],
        some (.panicIndex 0 0)⟩ := by
    rw [historyBody_ok 1 bareLog h2, historyTopics_nil _ _ rfl]
    simp [bareLog]
  have e1 : (historyBody 0 (goodLog 1)).exit = none := by rw [b1]
  have e2 : (historyBody 1 bareLog).exit = some (.panicIndex 0 0) := by rw [b2]
  have hloop : historyLoop 0 [goodLog 1, bareLog, goodLog 2] =
      ⟨historyHeader 0 (goodLog 1) ++
        [.valueNonIndexed (Bytes2Hex (List.replicate 32 3)), .eventSignature ItemSet.ID.Hex,
         .keyIndexed (Hash.fill 1).Hex, .allIndexed [(Hash.fill 1).Hex]] ++
        historyHeader 1 bareLog ++ [.valueNonIndexed (Bytes2Hex (List.replicate 32 7))],
        some (.panicIndex 0 0)⟩ := by
    rw [historyLoop_cons_continue 0 _ _ e1, historyLoop_cons_stop 1 _ _ _ e2, b1, b2]
    simp
  refine ⟨hloop, ?_, ?_⟩
  · rw [hloop]
    simp [eventNumbers, historyHeader]
  · rw [hloop]
    simp [valuesReported, historyHeader]

/-! ## Where `EtherToWei` is exact -/

/-- For an integer `n` below `2^53`, `EtherToWei` returns `n * 10^18` whenever the
bits of the product below its 53 leading bits are zero, so that rounding the
product to 53 bits changes nothing. -/
theorem etherToWei_exact_of_dvd (n : Nat) (hn : n < 2 ^ 53)
    (hdvd : 2 ^ (bitLen (n * 7812500000000000) - 53) ∣ n * 7812500000000000) :
    EtherToWei (NewFloat n) = (n : ℤ) * 10 ^ 18 := by
  have hN := newFloat_small n hn
  have hexact := roundMant_exact 53 _ hdvd
  simp only [EtherToWei, BigFloat.Mul, hN, newFloat_1e18, if_true, Nat.max_self,
    BigFloat.Int, bne_self_eq_false, Bool.false_eq_true, if_false]
  have hexp : (0 : ℤ) ≤ 0 + 7 + ((roundMant 53 (n * 7812500000000000)).2 : ℤ) := by omega
  have htonat : ((0 : ℤ) + 7 + ((roundMant 53 (n * 7812500000000000)).2 : ℤ)).toNat =
      (roundMant 53 (n * 7812500000000000)).2 + 7 := by omega
  simp only [hexp, if_true, htonat]
  rw [Nat.pow_add, ← Nat.mul_assoc, hexact]
  push_cast
  ring

/-- Whole amounts beyond 2361 for which the product still fits 53 bits: 2362,
4096 and 10000 ether are converted exactly. -/
theorem etherToWei_exact_examples :
    EtherToWei (NewFloat 2362) = 2362 * 10 ^ 18 ∧
    EtherToWei (NewFloat 4096) = 4096 * 10 ^ 18 ∧
    EtherToWei (NewFloat 10000) = 10000 * 10 ^ 18 := by
  have b1 : bitLen (2362 * 7812500000000000) = 65 :=
    bitLen_eq _ 64 (by norm_num) (by norm_num)
  have b2 : bitLen (4096 * 7812500000000000) = 65 :=
    bitLen_eq _ 64 (by norm_num) (by norm_num)
  have b3 : bitLen (10000 * 7812500000000000) = 67 :=
    bitLen_eq _ 66 (by norm_num) (by norm_num)
  refine ⟨?_, ?_, ?_⟩
  · have h := etherToWei_exact_of_dvd 2362 (by norm_num) (by rw [b1]; norm_num)
    simpa using h
  · have h := etherToWei_exact_of_dvd 4096 (by norm_num) (by rw [b2]; norm_num)
    simpa using h
  · have h := etherToWei_exact_of_dvd 10000 (by norm_num) (by rw [b3]; norm_num)
    simpa using h

end EthProject
